import Mathlib

/-!
Verification of the bun query-assembly / hook-pipeline core.

Buffers (`[]byte` in the source) are modelled as `List Char`; Go errors are
`Option GoErr` with `GoErr.noRows` standing for `sql.ErrNoRows`.  Stateful
code is embedded by explicit state passing: a Go method that mutates its
receiver becomes a Lean function returning the updated value.
-/

set_option autoImplicit false

namespace Bun

/-- A Go `error` value.  `noRows` is the distinguished `sql.ErrNoRows`
sentinel; every other error is identified by its message text. -/
inductive GoErr where
  | noRows
  | msg (s : String)
  deriving Repr, DecidableEq, Inhabited

/-! ## Model-level batch hooks (`callHookSlice`, `callHookSlice2`) -/

/-- Loop body shared by `callHookSlice` and `callHookSlice2`: invoke `hook`
on every element, counting invocations and remembering the first non-nil
error (`if err := hook(ctx, v); err != nil && firstErr == nil`). -/
def callHookSliceGo {α : Type} (hook : α → Option GoErr) :
    List α → Nat → Option GoErr → Nat × Option GoErr
  | [], n, firstErr => (n, firstErr)
  | v :: rest, n, firstErr =>
      let err := hook v
      callHookSliceGo hook rest (n + 1)
        (match err, firstErr with
         | some e, none => some e
         | _, _ => firstErr)

/-- `callHookSlice` from the source: invokes the hook on each element of the
slice in order, returning the number of invocations (the reflection
plumbing `slice.Index(i)` / `v.Addr()` is elided) and the first error. -/
def callHookSlice {α : Type} (hook : α → Option GoErr) (slice : List α) :
    Nat × Option GoErr :=
  callHookSliceGo hook slice 0 none

/-- `callHookSlice2` from the source: like `callHookSlice` but guarded by
`slice.IsValid()`; an invalid (zero) slice value is modelled as `none`. -/
def callHookSlice2 {α : Type} (hook : α → Option GoErr)
    (slice : Option (List α)) : Nat × Option GoErr :=
  match slice with
  | none => (0, none)
  | some l => callHookSliceGo hook l 0 none

/-! ## Statement-level hook pipeline (`beforeQuery` / `afterQuery`) -/

/-- `QueryEvent` from the source (the `DB` back-reference, `QueryAppender`
and the `Stash` side-channel are elided; hooks are given the event by
value). -/
structure QueryEvent where
  query : List Char
  queryArgs : List String
  startTime : Nat
  result : Option Int
  err : Option GoErr
  deriving Repr, DecidableEq

/-- `DBStats`: the `Queries` and `Errors` counters. -/
structure Stats where
  queries : Nat
  errors : Nat
  deriving Repr, DecidableEq

/-- The part of `DB` the hook pipeline reads: the counters and the ordered
list of registered query hooks.  `H` is the hook interface type; its two
methods are supplied where needed as explicit function arguments. -/
structure DB (H : Type) where
  stats : Stats
  queryHooks : List H

/-- `db.beforeQuery` from the source: unconditionally increments the
`Queries` counter; when no hooks are registered returns a `none` event
(event construction skipped); otherwise builds the event and threads the
context through every hook's `BeforeQuery` in registration order. -/
def beforeQuery {H Ctx : Type} (runBefore : H → Ctx → QueryEvent → Ctx)
    (db : DB H) (ctx : Ctx) (query : List Char) (queryArgs : List String)
    (now : Nat) : DB H × Ctx × Option QueryEvent :=
  let db' : DB H :=
    { db with stats := { db.stats with queries := db.stats.queries + 1 } }
  if db'.queryHooks.length = 0 then
    (db', ctx, none)
  else
    let event : QueryEvent :=
      { query := query, queryArgs := queryArgs, startTime := now,
        result := none, err := none }
    (db', db'.queryHooks.foldl (fun c h => runBefore h c event) ctx,
      some event)

/-- `db.afterQueryFromIndex` from the source: invokes `AfterQuery` on the
hooks at indices `hookIndex, hookIndex-1, ..., 0`, i.e. in reverse
registration order.  The observable effect of each `AfterQuery` call is a
state transformation `σ → σ`. -/
def afterQueryFromIndex {H Ctx σ : Type} (runAfter : H → Ctx → QueryEvent → σ → σ)
    (hooks : List H) (ctx : Ctx) (event : QueryEvent) (hookIndex : Int)
    (s : σ) : σ :=
  if h : 0 ≤ hookIndex ∧ hookIndex.toNat < hooks.length then
    afterQueryFromIndex runAfter hooks ctx event (hookIndex - 1)
      (runAfter (hooks.get ⟨hookIndex.toNat, h.2⟩) ctx event s)
  else s
termination_by (hookIndex + 1).toNat
decreasing_by
  omega

/-- `db.afterQuery` from the source: increments the `Errors` counter
exactly when the final error is neither `nil` nor `sql.ErrNoRows`; when the
event is `nil` (no hooks registered) returns without invoking any hook;
otherwise populates the result/error on the event and runs the hooks in
reverse registration order. -/
def afterQuery {H Ctx σ : Type} (runAfter : H → Ctx → QueryEvent → σ → σ)
    (db : DB H) (ctx : Ctx) (event : Option QueryEvent) (res : Option Int)
    (err : Option GoErr) (s : σ) : DB H × σ :=
  let db' : DB H :=
    match err with
    | none => db
    | some GoErr.noRows => db
    | some _ =>
        { db with stats := { db.stats with errors := db.stats.errors + 1 } }
  match event with
  | none => (db', s)
  | some event =>
      let event' := { event with result := res, err := err }
      (db', afterQueryFromIndex runAfter db'.queryHooks ctx event'
        ((db'.queryHooks.length : Int) - 1) s)

end Bun

namespace Pgdialect

/-- Reinterpretation of a 32-bit unsigned value as a signed 32-bit
two's-complement integer (`int32(n)` in Go). -/
def toInt32 (n : Nat) : Int :=
  if n % 2 ^ 32 < 2 ^ 31 then ((n % 2 ^ 32 : Nat) : Int)
  else ((n % 2 ^ 32 : Nat) : Int) - 2 ^ 32

/-- Reinterpretation of a 64-bit unsigned value as a signed 64-bit
two's-complement integer (`int64(n)` in Go). -/
def toInt64 (n : Nat) : Int :=
  if n % 2 ^ 64 < 2 ^ 63 then ((n % 2 ^ 64 : Nat) : Int)
  else ((n % 2 ^ 64 : Nat) : Int) - 2 ^ 64

/-- `Dialect.AppendUint32` from the pgdialect source:
`strconv.AppendInt(b, int64(int32(n)), 10)` — the decimal text of the
signed 32-bit reinterpretation of `n`. -/
def AppendUint32 (b : String) (n : Nat) : String :=
  b ++ toString (toInt32 n)

/-- `Dialect.AppendUint64` from the pgdialect source:
`strconv.AppendInt(b, int64(n), 10)` — the decimal text of the signed
64-bit reinterpretation of `n`. -/
def AppendUint64 (b : String) (n : Nat) : String :=
  b ++ toString (toInt64 n)

end Pgdialect

namespace Schema

/-- `schema.QueryWithArgs`: a SQL text snippet plus bound positional
arguments.  `Args` is an `Option` to preserve Go's nil-vs-empty slice
distinction, which the source inspects (`col.Args == nil`). -/
structure QueryWithArgs where
  Query : String
  Args : Option (List String)
  deriving Repr, DecidableEq, Inhabited

/-- `schema.QueryWithSep`: a fragment plus the separator joining it to the
previous fragment of its clause. -/
structure QueryWithSep where
  Query : String
  Args : Option (List String)
  Sep : String
  deriving Repr, DecidableEq, Inhabited

/-- Modelled from the spec: `schema.SafeQuery` (schema package, not under
src/) packages a query string with its argument list; a Go nil argument
slice is normalized to an empty non-nil one. -/
def SafeQuery (query : String) (args : Option (List String)) : QueryWithArgs :=
  { Query := query, Args := some (args.getD []) }

/-- Modelled from the spec: `schema.UnsafeIdent` (schema package, not under
src/) marks a plain identifier; its `Args` stay nil, which is what the
column-rendering fast path tests. -/
def UnsafeIdent (ident : String) : QueryWithArgs :=
  { Query := ident, Args := none }

/-- Modelled from the spec: `schema.SafeQueryWithSep` (schema package, not
under src/), a fragment with an explicit separator. -/
def SafeQueryWithSep (query : String) (args : Option (List String))
    (sep : String) : QueryWithSep :=
  { Query := query, Args := args, Sep := sep }

/-- `QueryWithArgs.IsZero`: true for the zero value (empty text, nil args). -/
def QueryWithArgs.IsZero (q : QueryWithArgs) : Bool :=
  q.Query = "" && q.Args = none

/-- `schema.Field`: a mapped struct field's logical name and column SQL
name. -/
structure Field where
  Name : String
  SQLName : String
  deriving Repr, DecidableEq

/-- `schema.Table`: the table metadata the rendering code reads — SQL name,
alias, the ordered fields, and (modelled) the optional model-level select
hooks the table's zero value implements (`table.ZeroIface` capability
checks). `none` means the hook interface is not implemented; `some r` means
it is implemented and returns `r`. -/
structure Table where
  SQLName : String
  SQLAlias : String
  Fields : List Field
  beforeSelect : Option (Option Bun.GoErr) := none
  afterSelect : Option (Option Bun.GoErr) := none
  beforeAppend : Option (Option Bun.GoErr) := none
  deriving Repr, DecidableEq

/-- `table.FieldMap` lookup: the mapping from logical field name to `Field`. -/
def Table.fieldByName (t : Table) (name : String) : Option Field :=
  t.Fields.find? (fun f => f.Name == name)

end Schema

namespace Bun

open Schema

/-- `dialect.Name` values used by the source. -/
inductive DialectName where
  | pg | mysql | mssql | sqlite | oracle
  deriving Repr, DecidableEq, BEq

/-- `feature.Feature` flags (the capability bit-set), as an enumeration. -/
inductive Feature where
  | CTE | WithValues | Returning | InsertReturning | DefaultPlaceholder
  | DoubleColonCast | InsertTableAlias | UpdateTableAlias | DeleteTableAlias
  | TableCascade | TableIdentity | TableTruncate | TableNotExists
  | InsertOnConflict | SelectExists | GeneratedIdentity | CompositeIn
  deriving Repr, DecidableEq, BEq

/-- `schema.Formatter`: the slice the rendering code reads — the dialect's
name, its feature set, and whether this is the no-op formatter
(`fmter.IsNop()`). -/
structure Fmter where
  dialectName : DialectName
  features : List Feature
  isNop : Bool := false
  deriving Repr, DecidableEq

/-- `hasFeature` (capability lookup on the dialect's feature set). -/
def Fmter.hasFeature (f : Fmter) (x : Feature) : Bool :=
  f.features.contains x

/-- The PostgreSQL dialect's feature set, exactly the flags `New` sets in
the pgdialect source. -/
def pgFeatures : List Feature :=
  [Feature.CTE, Feature.WithValues, Feature.Returning, Feature.InsertReturning,
   Feature.DefaultPlaceholder, Feature.DoubleColonCast, Feature.InsertTableAlias,
   Feature.UpdateTableAlias, Feature.DeleteTableAlias, Feature.TableCascade,
   Feature.TableIdentity, Feature.TableTruncate, Feature.TableNotExists,
   Feature.InsertOnConflict, Feature.SelectExists, Feature.GeneratedIdentity,
   Feature.CompositeIn]

/-- A formatter for the PostgreSQL dialect of the pgdialect source. -/
def pgFmter : Fmter :=
  { dialectName := DialectName.pg, features := pgFeatures }

/-- `schema.RelationType`: the four relationship kinds. -/
inductive RelType where
  | hasOne | belongsTo | hasMany | manyToMany
  deriving Repr, DecidableEq, BEq

/-- Defunctionalized relation `apply` refinement.  A user-supplied
`func(*SelectQuery) *SelectQuery` closure (and the closure built by
`applyToRelation` from `Relation.Condition`) is represented by the clause
additions it performs on the query it receives. -/
inductive ApplyOp where
  | addWhere (cond : Schema.QueryWithSep)
  | addColumn (col : Schema.QueryWithArgs)
  deriving Repr, DecidableEq

mutual
/-- `TableModel`: a model bound to a query — its table metadata plus the
relation joins declared by the model (`getJoins`). -/
inductive TableModel : Type where
  | mk (table : Schema.Table) (joins : List RelationJoin) : TableModel

/-- `relationJoin`: one named relation edge instantiated for a query — the
relation's name, kind, static `Relation.Condition` filters, the related
model, the (defunctionalized) `apply` refinement, the column selection the
refinement produced, and extra JOIN ON conditions. -/
inductive RelationJoin : Type where
  | mk (name : String) (relType : RelType) (relCondition : List String)
       (joinModel : TableModel) (apply : List ApplyOp)
       (columns : Option (List Schema.QueryWithArgs))
       (additionalJoinOnConditions : List Schema.QueryWithArgs) : RelationJoin
end

/-- The table metadata of a table model. -/
def TableModel.table : TableModel → Schema.Table
  | TableModel.mk t _ => t

/-- `tableModel.getJoins()`. -/
def TableModel.getJoins : TableModel → List RelationJoin
  | TableModel.mk _ js => js

/-- The relation's name. -/
def RelationJoin.name : RelationJoin → String
  | RelationJoin.mk n _ _ _ _ _ _ => n

/-- `join.Relation.Type`. -/
def RelationJoin.relType : RelationJoin → RelType
  | RelationJoin.mk _ t _ _ _ _ _ => t

/-- `join.Relation.Condition`. -/
def RelationJoin.relCondition : RelationJoin → List String
  | RelationJoin.mk _ _ c _ _ _ _ => c

/-- `join.JoinModel`. -/
def RelationJoin.joinModel : RelationJoin → TableModel
  | RelationJoin.mk _ _ _ m _ _ _ => m

/-- `join.apply` (defunctionalized; `[]` is Go's nil closure). -/
def RelationJoin.apply : RelationJoin → List ApplyOp
  | RelationJoin.mk _ _ _ _ a _ _ => a

/-- `join.columns`. -/
def RelationJoin.columns : RelationJoin → Option (List Schema.QueryWithArgs)
  | RelationJoin.mk _ _ _ _ _ c _ => c

/-- `join.additionalJoinOnConditions`. -/
def RelationJoin.addOnConds : RelationJoin → List Schema.QueryWithArgs
  | RelationJoin.mk _ _ _ _ _ _ a => a

/-- Replace a join's `apply` refinement (what `applyToRelation` stores). -/
def RelationJoin.withApply : RelationJoin → List ApplyOp → RelationJoin
  | RelationJoin.mk n t c m _ cols a, ops => RelationJoin.mk n t c m ops cols a

/-- Replace a join's `columns` (what `applyTo` stores back). -/
def RelationJoin.withColumns :
    RelationJoin → Option (List Schema.QueryWithArgs) → RelationJoin
  | RelationJoin.mk n t c m ops _ a, cols => RelationJoin.mk n t c m ops cols a

/-- Replace the joins of a join's related model. -/
def RelationJoin.withJoinModelJoins : RelationJoin → List RelationJoin → RelationJoin
  | RelationJoin.mk n t c (TableModel.mk tbl _) ops cols a, js =>
      RelationJoin.mk n t c (TableModel.mk tbl js) ops cols a

/-- Modelled from the spec: `tableModel.join(name)` (model_table_struct.go,
not under src/) resolves a declared relation by name; an unknown name
yields nil ("a relation lookup by name that does not exist on the model is
a configuration error"). -/
def TableModel.joinByName (m : TableModel) (name : String) : Option RelationJoin :=
  m.getJoins.find? (fun j => j.name == name)

/-- `indexHints` (the MySQL USE/IGNORE/FORCE INDEX lists). -/
structure IndexHints where
  names : List Schema.QueryWithArgs := []
  forJoin : List Schema.QueryWithArgs := []
  forOrderBy : List Schema.QueryWithArgs := []
  forGroupBy : List Schema.QueryWithArgs := []
  deriving Repr, DecidableEq

/-- `withQuery`: one WITH (common-table-expression) entry.  Modelled from
the spec: the sub-query behind the entry (an arbitrary `Query` value, not
under src/) is represented by its rendered text. -/
structure WithQuery where
  name : String
  recursive : Bool
  body : String
  deriving Repr, DecidableEq

/-- `joinQuery`: one explicit JOIN clause plus its ON conditions. -/
structure JoinQuery where
  join : Schema.QueryWithArgs
  onList : List Schema.QueryWithSep := []
  deriving Repr, DecidableEq

/-- The non-recursive state of a `SelectQuery` (every clause list of
`whereBaseQuery`/`idxHintsQuery`/`orderLimitOffsetQuery` plus the select
query's own fields, except the recursive `union` list). -/
structure SQCore where
  err : Option GoErr := none
  conn : Option Unit := none
  table : Option Schema.Table := none
  tableModel : Option TableModel := none
  modelTableName : Schema.QueryWithArgs := { Query := "", Args := none }
  with_ : List WithQuery := []
  tables : List Schema.QueryWithArgs := []
  columns : Option (List Schema.QueryWithArgs) := none
  where_ : List Schema.QueryWithSep := []
  useHints : Option IndexHints := none
  ignoreHints : Option IndexHints := none
  forceHints : Option IndexHints := none
  distinctOn : Option (List Schema.QueryWithArgs) := none
  joins : List JoinQuery := []
  group : List Schema.QueryWithArgs := []
  having : List Schema.QueryWithArgs := []
  order : List Schema.QueryWithArgs := []
  limit : Int := 0
  offset : Int := 0
  selFor : Schema.QueryWithArgs := { Query := "", Args := none }
  comment : String := ""

mutual
/-- `SelectQuery`: the mutable accumulation of clause state plus the list
of set-operation branches (`union`), which recursively contain select
queries. -/
inductive SelectQuery : Type where
  | mk (core : SQCore) (union : List UnionEntry) : SelectQuery

/-- One `union` entry: the set-operation expression text and its operand
query. -/
inductive UnionEntry : Type where
  | mk (expr : String) (query : SelectQuery) : UnionEntry
end

/-- The flat clause state of a query. -/
def SelectQuery.core : SelectQuery → SQCore
  | SelectQuery.mk c _ => c

/-- The query's set-operation branches. -/
def SelectQuery.union : SelectQuery → List UnionEntry
  | SelectQuery.mk _ u => u

/-- A union entry's expression text. -/
def UnionEntry.expr : UnionEntry → String
  | UnionEntry.mk e _ => e

/-- A union entry's operand query. -/
def UnionEntry.query : UnionEntry → SelectQuery
  | UnionEntry.mk _ q => q

/-- Apply a flat-state update to a query. -/
def SelectQuery.modifyCore (f : SQCore → SQCore) : SelectQuery → SelectQuery
  | SelectQuery.mk c u => SelectQuery.mk (f c) u

/-- `NewSelectQuery`: a fresh query (all clause lists empty). -/
def NewSelectQuery : SelectQuery := SelectQuery.mk {} []

/-- `errNilModel` (bun.go): the error for builder calls that need a model. -/
def errNilModel : GoErr := GoErr.msg "bun: Model(nil)"

/-- Modelled from the spec: `baseQuery.setErr` (query_base.go, not under
src/) records a sticky error; per the spec an error is "recorded once on
the Query", so an already-recorded first error is kept. -/
def SQCore.setErrC (c : SQCore) (e : GoErr) : SQCore :=
  match c.err with
  | none => { c with err := some e }
  | some _ => c

/-- `q.Err(err)` / `setErr` on the query value. -/
def SelectQuery.setErr (q : SelectQuery) (e : GoErr) : SelectQuery :=
  q.modifyCore (fun c => c.setErrC e)

/-- `q.Conn(db)`: pin the query to a connection (`setConn`). -/
def SelectQuery.Conn (q : SelectQuery) : SelectQuery :=
  q.modifyCore (fun c => { c with conn := some () })

/-- Modelled from the spec: `setModel` (query_base.go, not under src/)
binds the query to a mapped model; the metadata provider "given a model
type, returns its Table" — the query's table model and target table are
set accordingly. -/
def SelectQuery.Model (q : SelectQuery) (tm : TableModel) : SelectQuery :=
  q.modifyCore (fun c => { c with tableModel := some tm, table := some tm.table })

/-- `q.Distinct()`: sets `distinctOn` to an empty, non-nil list. -/
def SelectQuery.Distinct (q : SelectQuery) : SelectQuery :=
  q.modifyCore (fun c => { c with distinctOn := some [] })

/-- `q.DistinctOn(query, args...)`: appends one DISTINCT ON expression. -/
def SelectQuery.DistinctOn (q : SelectQuery) (query : String)
    (args : Option (List String)) : SelectQuery :=
  q.modifyCore (fun c =>
    { c with distinctOn := some (c.distinctOn.getD [] ++ [SafeQuery query args]) })

/-- `q.Table(tables...)`: adds plain table identifiers. -/
def SelectQuery.Table (q : SelectQuery) (tables : List String) : SelectQuery :=
  q.modifyCore (fun c => { c with tables := c.tables ++ tables.map UnsafeIdent })

/-- `q.TableExpr(query, args...)`. -/
def SelectQuery.TableExpr (q : SelectQuery) (query : String)
    (args : Option (List String)) : SelectQuery :=
  q.modifyCore (fun c => { c with tables := c.tables ++ [SafeQuery query args] })

/-- `q.ModelTableExpr(query, args...)`. -/
def SelectQuery.ModelTableExpr (q : SelectQuery) (query : String)
    (args : Option (List String)) : SelectQuery :=
  q.modifyCore (fun c => { c with modelTableName := SafeQuery query args })

/-- `q.Column(columns...)`: adds plain column identifiers (`addColumn` with
`UnsafeIdent`; appending to a nil Go slice yields a non-nil one). -/
def SelectQuery.Column (q : SelectQuery) (columns : List String) : SelectQuery :=
  q.modifyCore (fun c =>
    { c with columns := some (c.columns.getD [] ++ columns.map UnsafeIdent) })

/-- `q.ColumnExpr(query, args...)`. -/
def SelectQuery.ColumnExpr (q : SelectQuery) (query : String)
    (args : Option (List String)) : SelectQuery :=
  q.modifyCore (fun c =>
    { c with columns := some (c.columns.getD [] ++ [SafeQuery query args]) })

/-- `q.Where(query, args...)`: appends an AND-separated where fragment. -/
def SelectQuery.Where (q : SelectQuery) (query : String)
    (args : Option (List String)) : SelectQuery :=
  q.modifyCore (fun c =>
    { c with where_ := c.where_ ++ [SafeQueryWithSep query args " AND "] })

/-- `q.WhereOr(query, args...)`: appends an OR-separated where fragment. -/
def SelectQuery.WhereOr (q : SelectQuery) (query : String)
    (args : Option (List String)) : SelectQuery :=
  q.modifyCore (fun c =>
    { c with where_ := c.where_ ++ [SafeQueryWithSep query args " OR "] })

/-- `q.Group(columns...)`. -/
def SelectQuery.Group (q : SelectQuery) (columns : List String) : SelectQuery :=
  q.modifyCore (fun c => { c with group := c.group ++ columns.map UnsafeIdent })

/-- `q.GroupExpr(group, args...)`. -/
def SelectQuery.GroupExpr (q : SelectQuery) (group : String)
    (args : Option (List String)) : SelectQuery :=
  q.modifyCore (fun c => { c with group := c.group ++ [SafeQuery group args] })

/-- `q.Having(having, args...)`. -/
def SelectQuery.Having (q : SelectQuery) (having : String)
    (args : Option (List String)) : SelectQuery :=
  q.modifyCore (fun c => { c with having := c.having ++ [SafeQuery having args] })

/-- `q.OrderExpr(query, args...)` (`addOrderExpr`; the `Order` convenience
parses sort directions in code not under src/ and is represented by its
expression form). -/
def SelectQuery.OrderExpr (q : SelectQuery) (query : String)
    (args : Option (List String)) : SelectQuery :=
  q.modifyCore (fun c => { c with order := c.order ++ [SafeQuery query args] })

/-- `q.Limit(n)`. -/
def SelectQuery.Limit (q : SelectQuery) (n : Int) : SelectQuery :=
  q.modifyCore (fun c => { c with limit := n })

/-- `q.Offset(n)`. -/
def SelectQuery.Offset (q : SelectQuery) (n : Int) : SelectQuery :=
  q.modifyCore (fun c => { c with offset := n })

/-- `q.For(s, args...)`: the locking clause. -/
def SelectQuery.For (q : SelectQuery) (s : String)
    (args : Option (List String)) : SelectQuery :=
  q.modifyCore (fun c => { c with selFor := SafeQuery s args })

/-- `q.Comment(comment)`. -/
def SelectQuery.Comment (q : SelectQuery) (comment : String) : SelectQuery :=
  q.modifyCore (fun c => { c with comment := comment })

/-- `q.addUnion(expr, other)` behind `Union`/`UnionAll`/`Intersect`/
`IntersectAll`/`Except`/`ExceptAll`. -/
def SelectQuery.addUnion (q : SelectQuery) (expr : String)
    (other : SelectQuery) : SelectQuery :=
  match q with
  | SelectQuery.mk c u => SelectQuery.mk c (u ++ [UnionEntry.mk expr other])

/-- `q.Union(other)`. -/
def SelectQuery.Union (q other : SelectQuery) : SelectQuery :=
  q.addUnion " UNION " other

/-- `q.UnionAll(other)`. -/
def SelectQuery.UnionAll (q other : SelectQuery) : SelectQuery :=
  q.addUnion " UNION ALL " other

/-- `q.Join(join, args...)`: appends a join clause with no ON conditions. -/
def SelectQuery.Join (q : SelectQuery) (join : String)
    (args : Option (List String)) : SelectQuery :=
  q.modifyCore (fun c =>
    { c with joins := c.joins ++ [{ join := SafeQuery join args }] })

/-- `q.joinOn(cond, args, sep)`: errs when no join precedes, otherwise
appends the condition to the last join's ON list. -/
def SelectQuery.joinOn (q : SelectQuery) (cond : String)
    (args : Option (List String)) (sep : String) : SelectQuery :=
  q.modifyCore (fun c =>
    if c.joins.isEmpty then
      c.setErrC (GoErr.msg "bun: query has no joins")
    else
      match c.joins.getLast? with
      | none => c
      | some last =>
          { c with joins := c.joins.dropLast ++
              [{ last with onList := last.onList ++ [SafeQueryWithSep cond args sep] }] })

/-- `q.JoinOn(cond, args...)`. -/
def SelectQuery.JoinOn (q : SelectQuery) (cond : String)
    (args : Option (List String)) : SelectQuery :=
  q.joinOn cond args " AND "

/-- `q.JoinOnOr(cond, args...)`. -/
def SelectQuery.JoinOnOr (q : SelectQuery) (cond : String)
    (args : Option (List String)) : SelectQuery :=
  q.joinOn cond args " OR "

/-- The refinement ops `applyToRelation` derives from the relation's static
`Condition` filters: each becomes an AND where-fragment with nil args. -/
def relConditionOps (conds : List String) : List ApplyOp :=
  conds.map (fun opt => ApplyOp.addWhere (SafeQueryWithSep opt none " AND "))

/-- Store the combined `apply` refinement (`applyToRelation`: first the
`Relation.Condition` filters, then the user refinement) on the named join. -/
def TableModel.setJoinApply (m : TableModel) (name : String)
    (userApply : List ApplyOp) : TableModel :=
  match m with
  | TableModel.mk tbl js =>
      TableModel.mk tbl (js.map (fun j =>
        if j.name == name then j.withApply (relConditionOps j.relCondition ++ userApply)
        else j))

/-- The `%s does not have relation=%q` message's table operand. -/
def tableNameOf : Option Schema.Table → String
  | some t => t.SQLName
  | none => "<nil>"

/-- `q.Relation(name, apply...)`: errs on a nil model or an undeclared
relation name; otherwise stores the combined refinement on the join
(`applyToRelation`). -/
def SelectQuery.Relation (q : SelectQuery) (name : String)
    (userApply : List ApplyOp) : SelectQuery :=
  match q.core.tableModel with
  | none => q.setErr errNilModel
  | some m =>
      match m.joinByName name with
      | none =>
          q.setErr (GoErr.msg
            (tableNameOf q.core.table ++ " does not have relation=" ++ name))
      | some _ =>
          q.modifyCore (fun c =>
            { c with tableModel := some (m.setJoinApply name userApply) })

end Bun

namespace Bun

open Schema

/-! ## Rendering -/

/-- Buffer literal helper: the `[]byte` contents of a string. -/
def str (s : String) : List Char := s.data

/-- Modelled from the spec: identifier quoting with the dialect's quote
character, `"` for the illustrated dialect. -/
def quoteIdent (s : String) : List Char :=
  '"' :: s.data ++ ['"']

/-- Modelled from the spec: `appendComment` (not under src/) emits a set
comment "as a leading `/* ... */` block". -/
def appendComment (b : List Char) (comment : String) : List Char :=
  if comment = "" then b else b ++ str "/* " ++ str comment ++ str " */ "

/-- Modelled from the spec: `QueryWithArgs.AppendQuery` (schema package,
not under src/) renders the fragment's text with its bound args; argument
interpolation is orthogonal to the verified properties and the fragment is
rendered as its text. -/
def fragText (f : QueryWithArgs) : List Char := str f.Query

/-- A parenthesized `QueryWithSep` fragment. -/
def parenFrag (o : QueryWithSep) : List Char :=
  '(' :: str o.Query ++ [')']

/-- Fragments joined by each fragment's own separator, each parenthesized
(the loop shape of `joinQuery.AppendQuery` and of the where-clause
rendering: `if i > 0 { b = append(b, on.Sep...) }`). -/
def sepParenFold (ons : List QueryWithSep) : List Char :=
  match ons with
  | [] => []
  | o :: rest => parenFrag o ++ (rest.map (fun o2 => str o2.Sep ++ parenFrag o2)).flatten

/-- One WITH entry's text. -/
def withEntryText (w : WithQuery) : List Char :=
  (if w.recursive then str "RECURSIVE " else []) ++ quoteIdent w.name ++
    str " AS (" ++ str w.body ++ str ")"

/-- Modelled from the spec: `baseQuery.appendWith` (query_base.go, not
under src/) renders the WITH (common-table-expression) clause ahead of the
SELECT list. -/
def appendWithText (ws : List WithQuery) : List Char :=
  if ws.isEmpty then []
  else str "WITH " ++ List.intercalate (str ", ") (ws.map withEntryText) ++ [' ']

/-- Run one defunctionalized `apply` op against the query state (the
`addWhere`/`addColumn` clause additions of `query_base.go`). -/
def applyOp (c : SQCore) : ApplyOp → SQCore
  | ApplyOp.addWhere w => { c with where_ := c.where_ ++ [w] }
  | ApplyOp.addColumn col => { c with columns := some (c.columns.getD [] ++ [col]) }

/-- Run a refinement's ops in order. -/
def applyOpsRun (ops : List ApplyOp) (c : SQCore) : SQCore :=
  ops.foldl applyOp c

/-- Modelled from the spec: `relationJoin.applyTo(q)` (relation.go, not
under src/).  The join's `apply` refinement — whose shape the visible
`applyToRelation` fixes: a closure receiving the primary query and adding
where/column clauses to it — runs against the primary query with the
target table swapped to the joined model and the column list stashed:
column selections are captured into `join.columns` while added filters
remain on the primary query's where list.  A nil (`[]`) refinement is a
no-op. -/
def RelationJoin.applyTo (j : RelationJoin) (c : SQCore) : RelationJoin × SQCore :=
  if j.apply.isEmpty then (j, c)
  else
    let savedTable := c.table
    let savedColumns := c.columns
    let c1 := applyOpsRun j.apply
      { c with table := some j.joinModel.table, columns := none }
    (j.withColumns c1.columns,
     { c1 with table := savedTable, columns := savedColumns })

mutual
/-- `forEachInlineRelJoin` with `fn = applyTo`: walk the to-one joins
depth-first, applying each join's refinement to the query state and
storing the updated joins back. -/
def applyToJoinList (c : SQCore) : List RelationJoin → SQCore × List RelationJoin
  | [] => (c, [])
  | j :: rest =>
      let p1 := applyToJoinOne c j
      let p2 := applyToJoinList p1.1 rest
      (p2.1, p1.2 :: p2.2)

/-- One step of the apply-phase walk: to-one joins run `applyTo` and then
recurse into the joined model's own joins; other kinds are untouched. -/
def applyToJoinOne (c : SQCore) : RelationJoin → SQCore × RelationJoin
  | RelationJoin.mk n rt conds (TableModel.mk tbl js) ops cols addOn =>
      match rt with
      | RelType.hasOne | RelType.belongsTo =>
          let p1 := (RelationJoin.mk n rt conds (TableModel.mk tbl js) ops cols addOn).applyTo c
          let p2 := applyToJoinList p1.2 js
          (p2.1, p1.1.withJoinModelJoins p2.2)
      | _ => (c, RelationJoin.mk n rt conds (TableModel.mk tbl js) ops cols addOn)
end

mutual
/-- The depth-first flattening of the to-one joins that
`forEachInlineRelJoin` visits (read-only traversals during rendering). -/
def inlineRelJoins : List RelationJoin → List RelationJoin
  | [] => []
  | j :: rest => inlineRelJoinsOne j ++ inlineRelJoins rest

/-- One step of the read-only to-one traversal. -/
def inlineRelJoinsOne : RelationJoin → List RelationJoin
  | RelationJoin.mk n rt conds (TableModel.mk tbl js) ops cols addOn =>
      match rt with
      | RelType.hasOne | RelType.belongsTo =>
          RelationJoin.mk n rt conds (TableModel.mk tbl js) ops cols addOn ::
            inlineRelJoins js
      | _ => []
end

/-- DISTINCT handling of the SELECT list: `DISTINCT ON (exprs) ` when the
ON-list is non-empty, `DISTINCT ` when `distinctOn` is a non-nil empty
list, nothing when it is nil. -/
def distinctText (c : SQCore) : List Char :=
  match c.distinctOn with
  | some l =>
      if l.length > 0 then
        str "DISTINCT ON (" ++ List.intercalate (str ", ") (l.map fragText) ++ str ") "
      else str "DISTINCT "
  | none => []

/-- Modelled from the spec: the dialect's `AppendString` (a quoted string
literal), used by the no-op formatter's column-count shorthand. -/
def appendStringLit (s : String) : List Char :=
  '\'' :: s.data ++ ['\'']

/-- The `appendColumns(b, table.SQLAlias, table.Fields)` helper (not under
src/): all of the table's fields, alias-qualified, comma-joined — modelled
from the spec's column defaulting rule. -/
def appendColumnsAll (tblAlias : String) (fields : List Field) : List Char :=
  List.intercalate (str ", ") (fields.map (fun f => str tblAlias ++ '.' :: str f.SQLName))

/-- One explicit column of the SELECT list: a plain identifier naming a
mapped field renders alias-qualified; anything else renders as its
fragment text. -/
def columnText (c : SQCore) (col : QueryWithArgs) : List Char :=
  match col.Args, c.table with
  | none, some t =>
      match t.fieldByName col.Query with
      | some field => str t.SQLAlias ++ '.' :: str field.SQLName
      | none => fragText col
  | _, _ => fragText col

/-- The column-list switch of `appendColumns`: explicit columns, else the
target table's fields (with the no-op formatter shorthand), else `*`. -/
def columnsSwitchText (fmter : Fmter) (c : SQCore) : List Char :=
  match c.columns with
  | some cols => List.intercalate (str ", ") (cols.map (columnText c))
  | none =>
      match c.table with
      | some t =>
          if t.Fields.length > 10 && fmter.isNop then
            str t.SQLAlias ++ '.' ::
              appendStringLit (toString t.Fields.length ++ " columns")
          else appendColumnsAll t.SQLAlias t.Fields
      | none => ['*']

/-- Modelled from the spec: `join.appendAlias` (relation.go, not under
src/) — the quoted alias of the relation join. -/
def joinAlias (j : RelationJoin) : List Char := quoteIdent j.name

/-- Modelled from the spec: `join.appendAliasColumn` (relation.go, not
under src/) — the quoted `alias__field` output column name. -/
def joinAliasColumn (j : RelationJoin) (fieldName : String) : List Char :=
  quoteIdent (j.name ++ "__" ++ fieldName)

/-- `appendInlineRelColumns`: the joined model's selected columns (or all
of its fields), each aliased `join.field AS "join__field"`. -/
def inlineRelColumnText (j : RelationJoin) : List Char :=
  match j.columns with
  | some cols =>
      List.intercalate (str ", ") (cols.map (fun col =>
        match col.Args, j.joinModel.table.fieldByName col.Query with
        | none, some field =>
            joinAlias j ++ '.' :: str field.SQLName ++ str " AS " ++
              joinAliasColumn j field.Name
        | _, _ => fragText col))
  | none =>
      List.intercalate (str ", ") (j.joinModel.table.Fields.map (fun field =>
        joinAlias j ++ '.' :: str field.SQLName ++ str " AS " ++
          joinAliasColumn j field.Name))

/-- The inline-relation part of the column list: before each join's
columns, `", "` is emitted when the buffer has grown past the last
checkpoint (`if len(b) != start`), mirroring the source's start-tracking
relative to the buffer at `appendColumns` entry. -/
def columnsJoinFold (ijs : List RelationJoin) (b0 : List Char) : List Char :=
  (ijs.foldl (fun (acc : List Char × Nat) j =>
      let b1 := if acc.1.length ≠ acc.2 then acc.1 ++ str ", " else acc.1
      let s1 := if acc.1.length ≠ acc.2 then b1.length else acc.2
      (b1 ++ inlineRelColumnText j, s1))
    (b0, 0)).1

/-- `bytes.TrimSuffix(b, ", ")`. -/
def trimSep (b : List Char) : List Char :=
  if (str ", ").isSuffixOf b then b.take (b.length - 2) else b

/-- `appendColumns`: the column switch, the inline-relation columns with
their checkpointed separators, and the trailing `", "` trim — the trim
applies to the whole buffer, exactly as in the source. -/
def appendColumnsSection (fmter : Fmter) (c : SQCore) (ijs : List RelationJoin)
    (b : List Char) : List Char :=
  trimSep (b ++ columnsJoinFold ijs (columnsSwitchText fmter c))

/-- `hasTables`: modelled from the spec — a FROM clause is emitted when a
target table, a model table expression, or explicit tables are present. -/
def hasTables (c : SQCore) : Bool :=
  c.table.isSome || !c.modelTableName.IsZero || !c.tables.isEmpty

/-- Modelled from the spec: `appendTablesWithAlias` (query_base.go, not
under src/) — the target table aliased (or the model table expression),
followed by the explicit tables, comma-joined. -/
def appendTablesText (c : SQCore) : List Char :=
  let base : List (List Char) :=
    (match c.table with
     | some t =>
         [if c.modelTableName.IsZero then
            quoteIdent t.SQLName ++ str " AS " ++ quoteIdent t.SQLAlias
          else str c.modelTableName.Query]
     | none =>
         if c.modelTableName.IsZero then [] else [str c.modelTableName.Query])
    ++ c.tables.map fragText
  List.intercalate (str ", ") base

/-- Modelled from the spec: one MySQL index-hint group (`idx_hint.go`, not
under src/). -/
def hintPart (kw tail : String) (l : List QueryWithArgs) : List Char :=
  if l.isEmpty then []
  else
    str " " ++ str kw ++ str " INDEX" ++ str tail ++ str " (" ++
      List.intercalate (str ", ") (l.map fragText) ++ str ")"

/-- Modelled from the spec: one hint set (USE/IGNORE/FORCE). -/
def hintSetText (kw : String) : Option IndexHints → List Char
  | none => []
  | some h =>
      hintPart kw "" h.names ++ hintPart kw " FOR JOIN" h.forJoin ++
        hintPart kw " FOR ORDER BY" h.forOrderBy ++
        hintPart kw " FOR GROUP BY" h.forGroupBy

/-- Modelled from the spec: `appendIndexHints` (idx_hint.go, not under
src/). -/
def indexHintsText (c : SQCore) : List Char :=
  hintSetText "USE" c.useHints ++ hintSetText "IGNORE" c.ignoreHints ++
    hintSetText "FORCE" c.forceHints

/-- Modelled from the spec: the ON conditions of an inlined to-one join;
the foreign-key equality conditions live in metadata not under src/ and
are abstracted as `(TRUE)`, followed by any additional JOIN ON
conditions. -/
def joinOnConds (j : RelationJoin) : List Char :=
  if j.addOnConds.isEmpty then str "(TRUE)"
  else
    List.intercalate (str " AND ")
      (j.addOnConds.map (fun f => '(' :: fragText f ++ [')']))

/-- Modelled from the spec: `relationJoin.appendHasOneJoin` (relation.go,
not under src/) — the inlined to-one relation "spliced into the FROM/JOIN
clause" as a LEFT JOIN of the related table under the relation's alias. -/
def appendHasOneJoinText (j : RelationJoin) : List Char :=
  str "LEFT JOIN " ++ quoteIdent j.joinModel.table.SQLName ++ str " AS " ++
    joinAlias j ++ str " ON " ++ joinOnConds j

/-- `joinQuery.AppendQuery`: a space, the join fragment, and — when ON
conditions exist — ` ON ` with the parenthesized, separator-joined
conditions. -/
def JoinQuery.appendText (j : JoinQuery) : List Char :=
  ' ' :: fragText j.join ++
    (if j.onList.isEmpty then [] else str " ON " ++ sepParenFold j.onList)

/-- Modelled from the spec: `appendWhere` (query_base.go, not under src/)
— "WHERE (fragments joined by each fragment's own separator, default
AND)". -/
def appendWhereSection (ws : List QueryWithSep) (b : List Char) : List Char :=
  if ws.isEmpty then b else b ++ str " WHERE " ++ sepParenFold ws

/-- Modelled from the spec: `appendOrder` (query_base.go, not under
src/). -/
def appendOrderSection (c : SQCore) (b : List Char) : List Char :=
  if c.order.isEmpty then b
  else b ++ str " ORDER BY " ++ List.intercalate (str ", ") (c.order.map fragText)

/-- Modelled from the spec: `appendLimitOffset` (query_base.go, not under
src/) for a dialect with standard LIMIT/OFFSET support. -/
def appendLimitOffsetSection (c : SQCore) (b : List Char) : List Char :=
  let b := if c.limit > 0 then b ++ str " LIMIT " ++ str (toString c.limit) else b
  if c.offset > 0 then b ++ str " OFFSET " ++ str (toString c.offset) else b

/-- The apply-phase of rendering: run every inline to-one join's
refinement against the query state and store the updated joins back on the
table model. -/
def applyPhase (core : SQCore) : SQCore :=
  match core.tableModel with
  | none => core
  | some (TableModel.mk tbl js) =>
      let p := applyToJoinList core js
      { p.1 with tableModel := some (TableModel.mk tbl p.2) }

/-- The inline to-one joins of the (post-apply) query state, in DFS
order. -/
def coreInlineJoins (c : SQCore) : List RelationJoin :=
  match c.tableModel with
  | none => []
  | some tm => inlineRelJoins tm.getJoins

/-- The text the pipeline appends ahead of the column list: count-wrapper
CTE open, set-operation paren, WITH clause, `SELECT `, distinct handling —
the appends of the source up to the column switch, gathered as one
concatenation. -/
def preColsText (core1 : SQCore) (hasUnions cteCount : Bool) : List Char :=
  (if cteCount then str "WITH _count_wrapper AS (" else []) ++
  (if hasUnions then ['('] else []) ++
  appendWithText core1.with_ ++
  str "SELECT " ++
  distinctText core1

/-- The MSSQL `Limit()`-without-`Order()` synthetic sort column. -/
def mssqlHackText (fmter : Fmter) (core1 : SQCore) : List Char :=
  if core1.limit > 0 && core1.order.isEmpty &&
     fmter.dialectName == DialectName.mssql
  then str "0 AS _temp_sort, " else []

/-- The text the pipeline appends after the column list: FROM, index
hints, inlined to-one joins, explicit joins, WHERE, GROUP BY, HAVING and —
unless counting — ORDER BY / LIMIT / OFFSET / FOR, gathered as one
concatenation (each section appends text that does not read the buffer). -/
def postColsText (fmter : Fmter) (core1 : SQCore) (ijs : List RelationJoin)
    (count : Bool) : List Char :=
  (if hasTables core1 then str " FROM " ++ appendTablesText core1 else []) ++
  indexHintsText core1 ++
  (ijs.map (fun j => ' ' :: appendHasOneJoinText j)).flatten ++
  (core1.joins.map JoinQuery.appendText).flatten ++
  (if core1.where_.isEmpty then [] else str " WHERE " ++ sepParenFold core1.where_) ++
  (if core1.group.length > 0 then
    str " GROUP BY " ++ List.intercalate (str ", ") (core1.group.map fragText)
   else []) ++
  (if core1.having.length > 0 then
    str " HAVING " ++
      List.intercalate (str " AND ")
        (core1.having.map (fun f => '(' :: fragText f ++ [')']))
   else []) ++
  (if !count then
    appendOrderSection core1 [] ++ appendLimitOffsetSection core1 [] ++
      (if !core1.selFor.IsZero then str " FOR " ++ fragText core1.selFor else [])
   else [])

/-- The buffer after every section up to (but excluding) the union
branches: on the count-without-wrapper path, `count(*)` replaces the
column list; otherwise the column section (whose trailing-separator trim
acts on the whole buffer) sits between the pre- and post-column texts. -/
def appendQueryMid (fmter : Fmter) (core1 : SQCore) (ijs : List RelationJoin)
    (hasUnions cteCount count : Bool) (b : List Char) : List Char :=
  if count && !cteCount then
    b ++ preColsText core1 hasUnions cteCount ++ str "count(*)" ++
      postColsText fmter core1 ijs count
  else
    appendColumnsSection fmter core1 ijs
        (b ++ preColsText core1 hasUnions cteCount ++ mssqlHackText fmter core1) ++
      postColsText fmter core1 ijs count

mutual
/-- `selectQuery.appendQuery(fmter, b, count)`: the full render pipeline in
source clause order — sticky-error short circuit, count-wrapper CTE open,
set-operation paren, WITH, the inline-relation apply phase, SELECT list
(distinct / `count(*)` / columns incl. inline relation columns and the
MSSQL `_temp_sort` hack), FROM, index hints, inlined to-one joins, explicit
joins, WHERE, GROUP BY, HAVING, (unless counting) ORDER BY / LIMIT /
OFFSET / FOR, union branches, count-wrapper close.  The updated query
(mutated through the apply phase and recursively through union operands)
is returned alongside the rendered text. -/
def SelectQuery.appendQuery (fmter : Fmter) (q : SelectQuery) (b : List Char)
    (count : Bool) : SelectQuery × Except GoErr (List Char) :=
  match q with
  | SelectQuery.mk core us =>
    match core.err with
    | some e => (SelectQuery.mk core us, Except.error e)
    | none =>
      let cteCount := count && (core.group.length > 0 || core.distinctOn.isSome)
      let core1 := applyPhase core
      let ijs := coreInlineJoins core1
      let b := appendQueryMid fmter core1 ijs (us.length > 0) cteCount count b
      match (if us.isEmpty then (us, Except.ok b) else unionTail fmter us (b ++ [')'])) with
      | (us1, Except.error e) => (SelectQuery.mk core1 us1, Except.error e)
      | (us1, Except.ok b1) =>
          (SelectQuery.mk core1 us1,
           Except.ok (if cteCount then
             b1 ++ str ") SELECT count(*) FROM _count_wrapper" else b1))

/-- The trailing union branches: for each entry, the set-operation
expression, an open paren, the operand's full `AppendQuery` — its leading
comment then its body, inlined here so the recursion is structural — which
may fail with the operand's sticky error and mutates the operand, then a
close paren. -/
def unionTail (fmter : Fmter) (us : List UnionEntry) (b : List Char) :
    List UnionEntry × Except GoErr (List Char) :=
  match us with
  | [] => ([], Except.ok b)
  | UnionEntry.mk expr uq :: rest =>
      let p := SelectQuery.appendQuery fmter uq
        (appendComment (b ++ str expr ++ ['(']) uq.core.comment) false
      match p.2 with
      | Except.error e => (UnionEntry.mk expr p.1 :: rest, Except.error e)
      | Except.ok b1 =>
          let p2 := unionTail fmter rest (b1 ++ [')'])
          (UnionEntry.mk expr p.1 :: p2.1, p2.2)
end

/-- `SelectQuery.AppendQuery(fmter, b)`: the leading comment block, then
the body with `count = false`. -/
def SelectQuery.AppendQuery (fmter : Fmter) (q : SelectQuery) (b : List Char) :
    SelectQuery × Except GoErr (List Char) :=
  SelectQuery.appendQuery fmter q (appendComment b q.core.comment) false

end Bun

namespace Bun

open Schema

/-! ## Derived query wrappers (`countQuery`, `selectExistsQuery`,
`whereExistsQuery`) -/

/-- `countQuery.AppendQuery`: the sticky-error check, then the body with
`count = true` (no comment block). -/
def countQueryAppendQuery (fmter : Fmter) (q : SelectQuery) (b : List Char) :
    SelectQuery × Except GoErr (List Char) :=
  match q.core.err with
  | some e => (q, Except.error e)
  | none => SelectQuery.appendQuery fmter q b true

/-- `selectExistsQuery.AppendQuery`: `SELECT EXISTS (` body `)`. -/
def selectExistsAppendQuery (fmter : Fmter) (q : SelectQuery) (b : List Char) :
    SelectQuery × Except GoErr (List Char) :=
  match q.core.err with
  | some e => (q, Except.error e)
  | none =>
      let p := SelectQuery.appendQuery fmter q (b ++ str "SELECT EXISTS (") false
      match p.2 with
      | Except.error e => (p.1, Except.error e)
      | Except.ok b1 => (p.1, Except.ok (b1 ++ [')']))

/-- `whereExistsQuery.AppendQuery`: `SELECT 1 WHERE EXISTS (` body `)`. -/
def whereExistsAppendQuery (fmter : Fmter) (q : SelectQuery) (b : List Char) :
    SelectQuery × Except GoErr (List Char) :=
  match q.core.err with
  | some e => (q, Except.error e)
  | none =>
      let p := SelectQuery.appendQuery fmter q (b ++ str "SELECT 1 WHERE EXISTS (") false
      match p.2 with
      | Except.error e => (p.1, Except.error e)
      | Except.ok b1 => (p.1, Except.ok (b1 ++ [')']))

/-! ## Clone -/

/-- `cloneArgs` inside `Clone`: a copy that normalizes a Go empty slice to
nil (`if len(args) == 0 { return nil }`). -/
def cloneArgs : Option (List QueryWithArgs) → Option (List QueryWithArgs)
  | none => none
  | some l => if l.isEmpty then none else some l

/-- `append([]any(nil), args...)`: an argument-list copy whose result is
nil when the source is empty. -/
def copyArgs : Option (List String) → Option (List String)
  | none => none
  | some l => if l.isEmpty then none else some l

/-- `cloneHints` inside `Clone` (the per-list `cloneArgs` normalization is
invisible on plain lists under value semantics). -/
def cloneHints : Option IndexHints → Option IndexHints
  | none => none
  | some h => some h

/-- Modelled from the spec: `tableModel.clone()` (model table code, not
under src/) produces an independent deep copy; under value semantics the
deep copy is the value itself. -/
def TableModel.clone (m : TableModel) : TableModel := m

mutual
/-- `q.Clone()`: rebuilds the query from the fields the source copies —
the dialect/table/model references are shared, clause lists are copied
(with Go's empty-slice-to-nil normalizations), union operands are cloned
recursively.  Fields the source does not copy (`err`, `conn`) come out as
their zero values. -/
def SelectQuery.Clone : SelectQuery → SelectQuery
  | SelectQuery.mk c us =>
      SelectQuery.mk
        { err := none
          conn := none
          table := c.table
          tableModel := c.tableModel.map TableModel.clone
          modelTableName :=
            if c.modelTableName.IsZero then { Query := "", Args := none }
            else { Query := c.modelTableName.Query, Args := copyArgs c.modelTableName.Args }
          with_ := c.with_.map (fun w =>
            { name := w.name, recursive := w.recursive, body := w.body })
          tables := c.tables
          columns := cloneArgs c.columns
          where_ := c.where_.map (fun w =>
            SafeQueryWithSep w.Query (copyArgs w.Args) w.Sep)
          useHints := cloneHints c.useHints
          ignoreHints := cloneHints c.ignoreHints
          forceHints := cloneHints c.forceHints
          distinctOn := cloneArgs c.distinctOn
          joins := c.joins.map (fun j =>
            { join := { Query := j.join.Query, Args := copyArgs j.join.Args }
              onList := j.onList.map (fun o =>
                SafeQueryWithSep o.Query (copyArgs o.Args) o.Sep) })
          group := c.group
          having := c.having
          order := c.order
          limit := c.limit
          offset := c.offset
          selFor :=
            if c.selFor.IsZero then { Query := "", Args := none }
            else { Query := c.selFor.Query, Args := copyArgs c.selFor.Args }
          comment := c.comment }
        (cloneUnions us)

/-- The recursive union-operand clones. -/
def cloneUnions : List UnionEntry → List UnionEntry
  | [] => []
  | UnionEntry.mk e uq :: rest => UnionEntry.mk e uq.Clone :: cloneUnions rest
end

/-! ## Execution adapter and terminal operations -/

/-- An `sql.Result`: the `RowsAffected` value paired with the error that
call may return. -/
structure ExecResult where
  rowsAffected : Int := 0
  rowsAffectedErr : Option GoErr := none
  deriving Repr, DecidableEq

/-- The execution/scan adapter (external collaborator): the results the
live database yields for each rendered statement, plus — modelled from the
spec — the outcome of each deferred relation's follow-up statement
(`selectMany`/`selectM2M`, relation.go, not under src/), keyed by relation
name. -/
structure Adapter where
  exec : List Char → ExecResult × Option GoErr
  queryRows : List Char → Option GoErr
  queryRowInt : List Char → Int × Option GoErr
  queryRowBool : List Char → Bool × Option GoErr
  scanQuery : List Char → ExecResult × Option GoErr
  selectRelation : String → Option GoErr

/-- Modelled from the spec: `beforeAppendModel` (query_base.go, not under
src/) invokes the bound model's before-append hook when the model
implements it. -/
def SelectQuery.beforeAppendModel (q : SelectQuery) : Option GoErr :=
  match q.core.tableModel with
  | some tm => tm.table.beforeAppend.getD none
  | none => none

/-- `q.Rows(ctx)`: sticky error, before-append hook, render, then the
adapter's `QueryContext`; the hook-pipeline bookkeeping around the call is
modelled by `beforeQuery`/`afterQuery` and the propagated context is folded
into the adapter oracle. -/
def SelectQuery.Rows (fmter : Fmter) (ad : Adapter) (q : SelectQuery) :
    SelectQuery × Option GoErr :=
  match q.core.err with
  | some e => (q, some e)
  | none =>
    match q.beforeAppendModel with
    | some e => (q, some e)
    | none =>
      let p := SelectQuery.AppendQuery fmter q []
      match p.2 with
      | Except.error e => (p.1, some e)
      | Except.ok query => (p.1, ad.queryRows query)

/-- `q.Exec(ctx, dest...)`: sticky error, before-append hook, render, then
either the scan path (a destination was given) or the adapter's
`ExecContext`. -/
def SelectQuery.Exec (fmter : Fmter) (ad : Adapter) (q : SelectQuery)
    (hasDest : Bool) : SelectQuery × Option ExecResult × Option GoErr :=
  match q.core.err with
  | some e => (q, none, some e)
  | none =>
    match q.beforeAppendModel with
    | some e => (q, none, some e)
    | none =>
      let p := SelectQuery.AppendQuery fmter q []
      match p.2 with
      | Except.error e => (p.1, none, some e)
      | Except.ok query =>
          let r := if hasDest then ad.scanQuery query else ad.exec query
          match r.2 with
          | some e => (p.1, none, some e)
          | none => (p.1, some r.1, none)

/-- One statement issued by a `Scan`: the primary scan or a deferred
relation's follow-up, identified by the relation name. -/
inductive Stmt where
  | primary (sql : List Char)
  | followUp (relName : String)
  deriving Repr, DecidableEq

mutual
/-- `q.selectJoins(ctx, joins)`: to-one joins recurse into the related
model's joins; to-many and many-to-many joins each issue one follow-up
statement (`selectMany`/`selectM2M`); the first error aborts the
traversal. -/
def selectJoinsList (ad : Adapter) : List RelationJoin → List Stmt × Option GoErr
  | [] => ([], none)
  | j :: rest =>
      let p1 := selectJoinsOne ad j
      match p1.2 with
      | some e => (p1.1, some e)
      | none =>
          let p2 := selectJoinsList ad rest
          (p1.1 ++ p2.1, p2.2)

/-- One join of the deferred-relation traversal. -/
def selectJoinsOne (ad : Adapter) : RelationJoin → List Stmt × Option GoErr
  | RelationJoin.mk n rt conds (TableModel.mk tbl js) ops cols addOn =>
      match rt with
      | RelType.hasOne | RelType.belongsTo => selectJoinsList ad js
      | RelType.hasMany => ([Stmt.followUp n], ad.selectRelation n)
      | RelType.manyToMany => ([Stmt.followUp n], ad.selectRelation n)
end

/-- `q.scanResult(ctx, dest...)`: sticky error; the visible
dest-with-to-many-joins configuration error; the table's before-select
hook; the before-append hook; render; the primary scan; deferred relation
resolution only when the scan's affected-row count is greater than zero;
the after-select hook.  Returns the updated query, the trace of issued
statements, the scan's `sql.Result`, and the error.  (`getModel` is not
under src/; the scanned model is taken to be the query's table model.) -/
def SelectQuery.scanResult (fmter : Fmter) (ad : Adapter) (q : SelectQuery)
    (hasDest : Bool) : SelectQuery × List Stmt × Option ExecResult × Option GoErr :=
  match q.core.err with
  | some e => (q, [], none, some e)
  | none =>
    let destErr : Option GoErr :=
      match q.core.tableModel with
      | some tm =>
          if hasDest && tm.getJoins.length > 0 &&
             tm.getJoins.any (fun j =>
               j.relType == RelType.hasMany || j.relType == RelType.manyToMany)
          then some (GoErr.msg "When querying has-many or many-to-many relationships, you should use Model instead of the dest parameter in Scan.")
          else none
      | none => none
    match destErr with
    | some e => (q, [], none, some e)
    | none =>
      let bsErr : Option GoErr :=
        match q.core.table with
        | some t => t.beforeSelect.getD none
        | none => none
      match bsErr with
      | some e => (q, [], none, some e)
      | none =>
        match q.beforeAppendModel with
        | some e => (q, [], none, some e)
        | none =>
          let p := SelectQuery.AppendQuery fmter q []
          match p.2 with
          | Except.error e => (p.1, [], none, some e)
          | Except.ok query =>
            let sr := ad.scanQuery query
            match sr.2 with
            | some e => (p.1, [Stmt.primary query], none, some e)
            | none =>
              let res := sr.1
              let joinsRun :=
                if res.rowsAffected > 0 then
                  match p.1.core.tableModel with
                  | some tm => selectJoinsList ad tm.getJoins
                  | none => ([], none)
                else ([], none)
              match joinsRun.2 with
              | some e => (p.1, Stmt.primary query :: joinsRun.1, none, some e)
              | none =>
                let asErr : Option GoErr :=
                  match p.1.core.table with
                  | some t => t.afterSelect.getD none
                  | none => none
                match asErr with
                | some e => (p.1, Stmt.primary query :: joinsRun.1, none, some e)
                | none => (p.1, Stmt.primary query :: joinsRun.1, some res, none)

/-- `q.Scan(ctx, dest...)`: `scanResult` with the result discarded. -/
def SelectQuery.Scan (fmter : Fmter) (ad : Adapter) (q : SelectQuery)
    (hasDest : Bool) : SelectQuery × List Stmt × Option GoErr :=
  let p := SelectQuery.scanResult fmter ad q hasDest
  (p.1, p.2.1, p.2.2.2)

/-- `q.Count(ctx)`: sticky error, the derived count statement, then the
adapter's `QueryRowContext(...).Scan(&num)`. -/
def SelectQuery.Count (fmter : Fmter) (ad : Adapter) (q : SelectQuery) :
    SelectQuery × Int × Option GoErr :=
  match q.core.err with
  | some e => (q, 0, some e)
  | none =>
      let p := countQueryAppendQuery fmter q []
      match p.2 with
      | Except.error e => (p.1, 0, some e)
      | Except.ok query =>
          let r := ad.queryRowInt query
          (p.1, r.1, r.2)

/-- `q.selectExists(ctx)`: the native-EXISTS form, scanned into a bool. -/
def SelectQuery.selectExists (fmter : Fmter) (ad : Adapter) (q : SelectQuery) :
    SelectQuery × Bool × Option GoErr :=
  let p := selectExistsAppendQuery fmter q []
  match p.2 with
  | Except.error e => (p.1, false, some e)
  | Except.ok query =>
      let r := ad.queryRowBool query
      (p.1, r.1, r.2)

/-- `q.whereExists(ctx)`: the portable form executed with `Exec`; the
result is true exactly when the affected-row count equals 1. -/
def SelectQuery.whereExists (fmter : Fmter) (ad : Adapter) (q : SelectQuery) :
    SelectQuery × Bool × Option GoErr :=
  let p := whereExistsAppendQuery fmter q []
  match p.2 with
  | Except.error e => (p.1, false, some e)
  | Except.ok query =>
      let r := ad.exec query
      match r.2 with
      | some e => (p.1, false, some e)
      | none =>
          match r.1.rowsAffectedErr with
          | some e => (p.1, false, some e)
          | none => (p.1, r.1.rowsAffected == 1, none)

/-- `q.Exists(ctx)`: sticky error, then the capability-gated dispatch on
`feature.SelectExists`. -/
def SelectQuery.Exists (fmter : Fmter) (ad : Adapter) (q : SelectQuery) :
    SelectQuery × Bool × Option GoErr :=
  match q.core.err with
  | some e => (q, false, some e)
  | none =>
      if fmter.hasFeature Feature.SelectExists then
        SelectQuery.selectExists fmter ad q
      else
        SelectQuery.whereExists fmter ad q

/-- One part of a `ScanAndCount` execution: the scan statement (with its
own statement trace) or the separate count statement. -/
inductive SCStmt where
  | scanPart (trace : List Stmt)
  | countPart
  deriving Repr, DecidableEq

/-- The count step of `scanAndCountSeq`: run `Count` on the
(possibly scan-mutated) query after the scan step, keeping the scan's
trace and returning the first error (`if err != nil && firstErr == nil`). -/
def scanAndCountSeqFinish (fmter : Fmter) (ad : Adapter) (q1 : SelectQuery)
    (scanTrace : List SCStmt) (scanErr : Option GoErr) :
    SelectQuery × List SCStmt × Int × Option GoErr :=
  ((SelectQuery.Count fmter ad q1).1,
   scanTrace ++ [SCStmt.countPart],
   (SelectQuery.Count fmter ad q1).2.1,
   match (SelectQuery.Count fmter ad q1).2.2, scanErr with
   | some e, none => some e
   | _, _ => scanErr)

/-- `q.scanAndCountSeq(ctx, dest...)`: on a pinned connection — the scan
(skipped when the user set a negative limit, `Limit(-1)`), then the count,
sequentially; the first error encountered is returned. -/
def SelectQuery.scanAndCountSeq (fmter : Fmter) (ad : Adapter) (q : SelectQuery)
    (hasDest : Bool) : SelectQuery × List SCStmt × Int × Option GoErr :=
  if q.core.limit ≥ 0 then
    scanAndCountSeqFinish fmter ad (SelectQuery.scanResult fmter ad q hasDest).1
      [SCStmt.scanPart (SelectQuery.scanResult fmter ad q hasDest).2.1]
      (SelectQuery.scanResult fmter ad q hasDest).2.2.2
  else scanAndCountSeqFinish fmter ad q [] none

/-- Modelled from the spec: `scanAndCountConcurrently` — two tasks against
the pool, one scanning `q` (skipped on `Limit(-1)`), one counting on a
`Clone`; both joined, "returning the first error encountered (not
necessarily the first task to fail chronologically — whichever is recorded
first under a shared lock)"; which of two failures is recorded first is
scheduling-dependent and is an explicit oracle argument. -/
def SelectQuery.scanAndCountConcurrently (fmter : Fmter) (ad : Adapter)
    (q : SelectQuery) (hasDest : Bool) (scanErrFirst : Bool) :
    SelectQuery × List SCStmt × Int × Option GoErr :=
  let countQ := SelectQuery.Clone q
  let scanned :
      SelectQuery × List SCStmt × Option GoErr :=
    if q.core.limit ≥ 0 then
      let p := SelectQuery.scanResult fmter ad q hasDest
      (p.1, [SCStmt.scanPart p.2.1], p.2.2.2)
    else (q, [], none)
  let pc := SelectQuery.Count fmter ad countQ
  let firstErr :=
    match scanned.2.2, pc.2.2 with
    | some e1, some e2 => if scanErrFirst then some e1 else some e2
    | some e1, none => some e1
    | none, some e2 => some e2
    | none, none => none
  (scanned.1, scanned.2.1 ++ [SCStmt.countPart], pc.2.1, firstErr)

/-- The single-execution branch of `ScanAndCount`: the scan's
affected-row count is the count (`res.RowsAffected()` errors propagate). -/
def scanAndCountSingle
    (p : SelectQuery × List Stmt × Option ExecResult × Option GoErr) :
    SelectQuery × List SCStmt × Int × Option GoErr :=
  match p.2.2.2 with
  | some e => (p.1, [SCStmt.scanPart p.2.1], 0, some e)
  | none =>
      match p.2.2.1 with
      | none => (p.1, [SCStmt.scanPart p.2.1], 0, none)
      | some res =>
          match res.rowsAffectedErr with
          | some e => (p.1, [SCStmt.scanPart p.2.1], 0, some e)
          | none => (p.1, [SCStmt.scanPart p.2.1], res.rowsAffected, none)

/-- `q.ScanAndCount(ctx, dest...)`: with no limit and no offset, one
`scanResult` execution whose affected-row count is the count; otherwise
the concurrent pair when no connection is pinned, else the sequential
pair. -/
def SelectQuery.ScanAndCount (fmter : Fmter) (ad : Adapter) (q : SelectQuery)
    (hasDest : Bool) (scanErrFirst : Bool) :
    SelectQuery × List SCStmt × Int × Option GoErr :=
  if q.core.offset = 0 && q.core.limit = 0 then
    scanAndCountSingle (SelectQuery.scanResult fmter ad q hasDest)
  else if q.core.conn.isNone then
    SelectQuery.scanAndCountConcurrently fmter ad q hasDest scanErrFirst
  else
    SelectQuery.scanAndCountSeq fmter ad q hasDest

end Bun

namespace Bun

open Schema

/-! ## Auxiliary predicates and oracles used by the theorems -/

/-- Whether a statement of a scan trace is a deferred relation's follow-up. -/
def Stmt.isFollowUp : Stmt → Bool
  | Stmt.primary _ => false
  | Stmt.followUp _ => true

mutual
/-- All inline to-one joins of a join list carry a nil `apply` refinement
(recursively). -/
def joinsNoApply : List RelationJoin → Bool
  | [] => true
  | j :: rest => joinNoApply j && joinsNoApply rest

/-- One join of the no-refinement check. -/
def joinNoApply : RelationJoin → Bool
  | RelationJoin.mk _ rt _ (TableModel.mk _ js) ops _ _ =>
      match rt with
      | RelType.hasOne | RelType.belongsTo => ops.isEmpty && joinsNoApply js
      | _ => true
end

mutual
/-- No inline to-one join of the query — nor of any union operand,
recursively — carries an `apply` refinement. -/
def noApplyOps : SelectQuery → Bool
  | SelectQuery.mk c us =>
      (match c.tableModel with
       | none => true
       | some (TableModel.mk _ js) => joinsNoApply js) && unionsNoApply us

/-- The union-operand side of the no-refinement check. -/
def unionsNoApply : List UnionEntry → Bool
  | [] => true
  | UnionEntry.mk _ uq :: rest => noApplyOps uq && unionsNoApply rest
end

mutual
/-- The follow-up statements a join list produces when every deferred
relation statement succeeds: one per to-many / many-to-many join, in
traversal order. -/
def deferredRels : List RelationJoin → List Stmt
  | [] => []
  | j :: rest => deferredRelsOne j ++ deferredRels rest

/-- One join of the deferred-relation enumeration. -/
def deferredRelsOne : RelationJoin → List Stmt
  | RelationJoin.mk n rt _ (TableModel.mk _ js) _ _ _ =>
      match rt with
      | RelType.hasOne | RelType.belongsTo => deferredRels js
      | RelType.hasMany => [Stmt.followUp n]
      | RelType.manyToMany => [Stmt.followUp n]
end

/-- An adapter oracle whose every statement succeeds with zero affected
rows. -/
def zeroAdapter : Adapter :=
  { exec := fun _ => ({}, none)
    queryRows := fun _ => none
    queryRowInt := fun _ => (0, none)
    queryRowBool := fun _ => (false, none)
    scanQuery := fun _ => ({}, none)
    selectRelation := fun _ => none }

/-- A concrete mapped table (`users`). -/
def usersTable : Schema.Table :=
  { SQLName := "users", SQLAlias := "u",
    Fields := [⟨"id", "id"⟩, ⟨"name", "name"⟩] }

/-- A concrete related table (`profiles`). -/
def profilesTable : Schema.Table :=
  { SQLName := "profiles", SQLAlias := "p", Fields := [⟨"id", "id"⟩] }

/-- A declared to-one relation `Profile` carrying a static
`Relation.Condition` filter. -/
def profileJoin : RelationJoin :=
  RelationJoin.mk "Profile" RelType.hasOne ["p.active = TRUE"]
    (TableModel.mk profilesTable []) [] none []

/-- The `users` model declaring the `Profile` to-one relation. -/
def usersModel : TableModel := TableModel.mk usersTable [profileJoin]

/-- A query with the `Profile` relation selected: `Relation` stores the
condition filter as the join's apply refinement. -/
def qProfileRelation : SelectQuery :=
  SelectQuery.Relation (SelectQuery.Model NewSelectQuery usersModel) "Profile" []

end Bun

namespace Bun

open Schema

/-! ## Shared lemmas -/

/-- The loop of `callHookSlice`/`callHookSlice2` invokes the hook once per
element and accumulates the first non-nil error. -/
theorem callHookSliceGo_spec {α : Type} (hook : α → Option GoErr) :
    ∀ (l : List α) (n : Nat) (acc : Option GoErr),
      callHookSliceGo hook l n acc =
        (n + l.length,
         match acc with
         | some e => some e
         | none => (l.map hook).findSome? id) := by
  intro l
  induction l with
  | nil => intro n acc; cases acc <;> simp [callHookSliceGo]
  | cons v rest ih =>
      intro n acc
      cases acc with
      | some e =>
          simp only [callHookSliceGo]
          cases hv : hook v <;>
            simp [ih, Nat.add_assoc, Nat.add_comm 1 rest.length]
      | none =>
          simp only [callHookSliceGo]
          cases hv : hook v <;>
            simp [ih, hv, List.findSome?, Nat.add_assoc, Nat.add_comm 1 rest.length]

/-! ## C2 -/

/-- C2 (counterexample): for a two-entity batch whose hook fails on every
entity, `callHookSlice` — the runner of the before-insert/update/delete
batch hooks — still invokes the hook twice; the claimed short-circuit
after the first error (which would leave one invocation) does not happen. -/
theorem c2_before_hooks_short_circuit_counterexample :
    callHookSlice (fun _ : Nat => some (GoErr.msg "boom")) [0, 1] =
      (2, some (GoErr.msg "boom")) ∧
    (callHookSlice (fun _ : Nat => some (GoErr.msg "boom")) [0, 1]).1 ≠ 1 := by
  exact ⟨rfl, by decide⟩

/-- C2 (amended): every model-level batch hook runner invokes its hook
once per entity — `callHookSlice` (before-hooks) and `callHookSlice2`
(after/scan hooks) both run to completion over the whole batch with no
short-circuiting — and both return the first non-nil error; an invalid
slice yields no invocations and no error. -/
theorem c2_batch_hooks_run_to_completion {α : Type} (hook : α → Option GoErr)
    (slice : List α) :
    callHookSlice hook slice = (slice.length, (slice.map hook).findSome? id) ∧
    callHookSlice2 hook (some slice) = callHookSlice hook slice ∧
    callHookSlice2 hook (none : Option (List α)) = (0, none) := by
  refine ⟨?_, rfl, rfl⟩
  simpa using callHookSliceGo_spec hook slice 0 none

/-! ## C6 -/

/-- C6: with statement-level hooks registered in order `[A, B, C]`, the
before phase threads the context through `A`, then `B`, then `C`
(registration order), constructing one event; the after phase — given the
event populated with the final result and error — applies `C`, then `B`,
then `A` (reverse registration order). -/
theorem c6_hook_ordering {H Ctx σ : Type} (runB : H → Ctx → QueryEvent → Ctx)
    (runA : H → Ctx → QueryEvent → σ → σ) (a b c : H) (stats : Stats)
    (ctx : Ctx) (query : List Char) (args : List String) (now : Nat)
    (res : Option Int) (err : Option GoErr) (s : σ) :
    (beforeQuery runB ⟨stats, [a, b, c]⟩ ctx query args now).2 =
      (runB c (runB b (runB a ctx (QueryEvent.mk query args now none none))
          (QueryEvent.mk query args now none none))
        (QueryEvent.mk query args now none none),
       some (QueryEvent.mk query args now none none)) ∧
    (afterQuery runA ⟨stats, [a, b, c]⟩ ctx
        (some (QueryEvent.mk query args now none none)) res err s).2 =
      runA a ctx (QueryEvent.mk query args now res err)
        (runA b ctx (QueryEvent.mk query args now res err)
          (runA c ctx (QueryEvent.mk query args now res err) s)) := by
  constructor
  · simp [beforeQuery]
  · have hidx : ∀ (hooks : List H) (ev : QueryEvent) (s0 : σ),
        hooks = [a, b, c] →
        afterQueryFromIndex runA hooks ctx ev 2 s0 =
          runA a ctx ev (runA b ctx ev (runA c ctx ev s0)) := by
      intro hooks ev s0 hh
      subst hh
      rw [afterQueryFromIndex]
      norm_num
      rw [afterQueryFromIndex]
      norm_num
      rw [afterQueryFromIndex]
      norm_num
      rw [afterQueryFromIndex]
      norm_num
      rfl
    rcases err with _ | e
    · simpa [afterQuery] using hidx _ _ _ rfl
    · cases e <;> simpa [afterQuery] using hidx _ _ _ rfl

/-! ## C8 -/

/-- C8: `beforeQuery` increments the query counter unconditionally (with
or without registered hooks) and skips event construction exactly when no
hooks are registered; `afterQuery` increments the error counter exactly
when the final error is neither nil nor the no-rows sentinel, and with a
nil event (no hooks) it runs no after-hook at all. -/
theorem c8_stats_and_event_skip {H Ctx σ : Type}
    (runB : H → Ctx → QueryEvent → Ctx) (runA : H → Ctx → QueryEvent → σ → σ)
    (db : DB H) (ctx : Ctx) (query : List Char) (args : List String) (now : Nat)
    (ev : Option QueryEvent) (res : Option Int) (err : Option GoErr) (s : σ) :
    (beforeQuery runB db ctx query args now).1.stats.queries =
      db.stats.queries + 1 ∧
    ((beforeQuery runB db ctx query args now).2.2 = none ↔ db.queryHooks = []) ∧
    (afterQuery runA db ctx ev res err s).1.stats.errors =
      db.stats.errors +
        (if err = none ∨ err = some GoErr.noRows then 0 else 1) ∧
    (afterQuery runA db ctx none res err s).2 = s := by
  refine ⟨?_, ?_, ?_, ?_⟩
  · by_cases h : db.queryHooks.length = 0 <;> simp [beforeQuery, h]
  · constructor
    · intro h2
      by_cases h : db.queryHooks.length = 0
      · exact List.length_eq_zero.mp h
      · simp [beforeQuery, h] at h2
    · intro h2
      simp [beforeQuery, h2]
  · rcases err with _ | e
    · cases ev <;> simp [afterQuery]
    · cases e <;> cases ev <;> simp [afterQuery]
  · rcases err with _ | e
    · simp [afterQuery]
    · cases e <;> simp [afterQuery]

/-! ## C10 -/

/-- C10: for every 32-bit value, the pg dialect's `AppendUint32` appends
the decimal text of the unique signed 32-bit two's-complement
representative of `n` (congruent to `n` mod `2^32` and lying in
`[-2^31, 2^31)`), which is negative for every `n ≥ 2^31` — e.g.
`4294967295` renders as `"-1"` — and `AppendUint64` appends the signed
64-bit representative likewise. -/
theorem c10_pg_unsigned_render (b : String) (n n64 : Nat)
    (h32 : n < 2 ^ 32) (h64 : n64 < 2 ^ 64) :
    (∃ m : Int, Pgdialect.AppendUint32 b n = b ++ toString m ∧
       m % 2 ^ 32 = (n : Int) % 2 ^ 32 ∧ -(2 ^ 31) ≤ m ∧ m < 2 ^ 31 ∧
       (2 ^ 31 ≤ n → m < 0)) ∧
    (∃ m : Int, Pgdialect.AppendUint64 b n64 = b ++ toString m ∧
       m % 2 ^ 64 = (n64 : Int) % 2 ^ 64 ∧ -(2 ^ 63) ≤ m ∧ m < 2 ^ 63) ∧
    Pgdialect.AppendUint32 "" 4294967295 = "-1" := by
  have hmod : n % 2 ^ 32 = n := Nat.mod_eq_of_lt h32
  have hmod64 : n64 % 2 ^ 64 = n64 := Nat.mod_eq_of_lt h64
  refine ⟨⟨Pgdialect.toInt32 n, rfl, ?_, ?_, ?_, ?_⟩,
          ⟨Pgdialect.toInt64 n64, rfl, ?_, ?_, ?_⟩, ?_⟩
  · simp only [Pgdialect.toInt32, hmod]; split <;> omega
  · simp only [Pgdialect.toInt32, hmod]; split <;> omega
  · simp only [Pgdialect.toInt32, hmod]; split <;> omega
  · intro hge; simp only [Pgdialect.toInt32, hmod]; split <;> omega
  · simp only [Pgdialect.toInt64, hmod64]; split <;> omega
  · simp only [Pgdialect.toInt64, hmod64]; split <;> omega
  · simp only [Pgdialect.toInt64, hmod64]; split <;> omega
  · rfl

/-- C10 (witness): the theorem applied at `n = 4294967295`,
`n64 = 2^64 - 1`. -/
theorem c10_pg_unsigned_render_witness :
    (∃ m : Int, Pgdialect.AppendUint32 "x" 4294967295 = "x" ++ toString m ∧
       m % 2 ^ 32 = ((4294967295 : Nat) : Int) % 2 ^ 32 ∧ -(2 ^ 31) ≤ m ∧
       m < 2 ^ 31 ∧ (2 ^ 31 ≤ 4294967295 → m < 0)) ∧
    (∃ m : Int, Pgdialect.AppendUint64 "x" 18446744073709551615 =
       "x" ++ toString m ∧
       m % 2 ^ 64 = ((18446744073709551615 : Nat) : Int) % 2 ^ 64 ∧
       -(2 ^ 63) ≤ m ∧ m < 2 ^ 63) ∧
    Pgdialect.AppendUint32 "" 4294967295 = "-1" :=
  c10_pg_unsigned_render "x" 4294967295 18446744073709551615
    (by norm_num) (by norm_num)

/-! ## C1 -/

/-- C1 (counterexample): a `JoinOn` with no preceding join records the
sticky error, but `Clone` does not preserve it — the clone of the erred
query carries no error, refuting the claim that a clone "preserves and
surfaces that same error". -/
theorem c1_clone_drops_error_counterexample :
    (SelectQuery.JoinOn NewSelectQuery "a = b" none).core.err =
      some (GoErr.msg "bun: query has no joins") ∧
    (SelectQuery.Clone (SelectQuery.JoinOn NewSelectQuery "a = b" none)).core.err =
      none := ⟨rfl, rfl⟩

/-- C1 (amended): once a builder call records an error on the query, every
render or terminal call — `AppendQuery`, `Rows`, `Exec`, `Scan`, `Count`,
`Exists` — returns exactly that first error, with no SQL text produced;
further builder calls (`Where`, `joinOn`, `Relation`, `Distinct`) leave
the first recorded error in place.  `Clone`, however, does not preserve
the error: the clone's error is reset to nil. -/
theorem c1_sticky_error (fmter : Fmter) (ad : Adapter) (q : SelectQuery)
    (e : GoErr) (b : List Char) (hasDest : Bool) (h : q.core.err = some e) :
    SelectQuery.AppendQuery fmter q b = (q, Except.error e) ∧
    SelectQuery.Rows fmter ad q = (q, some e) ∧
    SelectQuery.Exec fmter ad q hasDest = (q, none, some e) ∧
    SelectQuery.Scan fmter ad q hasDest = (q, [], some e) ∧
    SelectQuery.Count fmter ad q = (q, 0, some e) ∧
    SelectQuery.Exists fmter ad q = (q, false, some e) ∧
    (∀ s a, (SelectQuery.Where q s a).core.err = some e) ∧
    (∀ s a sep, (SelectQuery.joinOn q s a sep).core.err = some e) ∧
    (∀ nm ops, (SelectQuery.Relation q nm ops).core.err = some e) ∧
    (SelectQuery.Distinct q).core.err = some e ∧
    (SelectQuery.Clone q).core.err = none := by
  obtain ⟨core, us⟩ := q
  simp only [SelectQuery.core] at h
  refine ⟨?_, ?_, ?_, ?_, ?_, ?_, ?_, ?_, ?_, ?_, ?_⟩
  · simp [SelectQuery.AppendQuery, SelectQuery.appendQuery, SelectQuery.core, h]
  · simp [SelectQuery.Rows, SelectQuery.core, h]
  · simp [SelectQuery.Exec, SelectQuery.core, h]
  · simp [SelectQuery.Scan, SelectQuery.scanResult, SelectQuery.core, h]
  · simp [SelectQuery.Count, SelectQuery.core, h]
  · simp [SelectQuery.Exists, SelectQuery.core, h]
  · intro s a
    simp [SelectQuery.Where, SelectQuery.modifyCore, SelectQuery.core, h]
  · intro s a sep
    simp only [SelectQuery.joinOn, SelectQuery.modifyCore, SelectQuery.core]
    split
    · simp [SQCore.setErrC, h]
    · split <;> simp [h]
  · intro nm ops
    cases htm : core.tableModel with
    | none =>
        simp [SelectQuery.Relation, SelectQuery.core, htm, SelectQuery.setErr,
          SelectQuery.modifyCore, SQCore.setErrC, h]
    | some m =>
        cases hj : m.joinByName nm with
        | none =>
            simp [SelectQuery.Relation, SelectQuery.core, htm, hj,
              SelectQuery.setErr, SelectQuery.modifyCore, SQCore.setErrC, h]
        | some j =>
            simp [SelectQuery.Relation, SelectQuery.core, htm, hj,
              SelectQuery.modifyCore, h]
  · simp [SelectQuery.Distinct, SelectQuery.modifyCore, SelectQuery.core, h]
  · simp [SelectQuery.Clone, SelectQuery.core]

/-- C1 (witness): the amended theorem applied to a concrete erred query
(`JoinOn` with no preceding join) with the pg formatter and an all-zero
adapter. -/
theorem c1_sticky_error_witness :
    SelectQuery.AppendQuery pgFmter (SelectQuery.JoinOn NewSelectQuery "a = b" none) [] =
      (SelectQuery.JoinOn NewSelectQuery "a = b" none,
       Except.error (GoErr.msg "bun: query has no joins")) ∧
    (SelectQuery.Clone (SelectQuery.JoinOn NewSelectQuery "a = b" none)).core.err =
      none := by
  have hmain := c1_sticky_error pgFmter zeroAdapter
    (SelectQuery.JoinOn NewSelectQuery "a = b" none)
    (GoErr.msg "bun: query has no joins") [] false rfl
  exact ⟨hmain.1, hmain.2.2.2.2.2.2.2.2.2.2⟩

/-! ## Buffer-extension (no partial overwrite) lemmas -/

/-- Trimming the trailing separator never eats into a prefix lying at
least two characters before the trimmed region. -/
theorem trimSep_extends (B m s : List Char) (h : 2 ≤ m.length) :
    ∃ t, trimSep (B ++ m ++ s) = B ++ t := by
  unfold trimSep
  split
  · refine ⟨(m ++ s).take ((m ++ s).length - 2), ?_⟩
    have h1 : B.take ((B ++ (m ++ s)).length - 2) = B :=
      List.take_of_length_le (by simp [List.length_append]; omega)
    rw [List.append_assoc, List.take_append_eq_append_take, h1]
    congr 2
    simp only [List.length_append]
    omega
  · exact ⟨m ++ s, by simp⟩

/-- The column section extends any buffer prefix lying at least two
characters before its start. -/
theorem appendColumnsSection_extends (f : Fmter) (c : SQCore)
    (ijs : List RelationJoin) (B m : List Char) (h : 2 ≤ m.length) :
    ∃ t, appendColumnsSection f c ijs (B ++ m) = B ++ t := by
  unfold appendColumnsSection
  have hx := trimSep_extends B m (columnsJoinFold ijs (columnsSwitchText f c)) h
  simpa [List.append_assoc] using hx

/-- The mid pipeline extends its input buffer past the optional
count-wrapper opener. -/
theorem appendQueryMid_extends (f : Fmter) (c1 : SQCore)
    (ijs : List RelationJoin) (hU cte count : Bool) (b : List Char) :
    ∃ t, appendQueryMid f c1 ijs hU cte count b =
      b ++ (if cte then str "WITH _count_wrapper AS (" else []) ++ t := by
  unfold appendQueryMid
  split
  · refine ⟨(if hU then ['('] else []) ++ appendWithText c1.with_ ++
      str "SELECT " ++ distinctText c1 ++ str "count(*)" ++
      postColsText f c1 ijs count, ?_⟩
    simp [preColsText, List.append_assoc]
  · have h7 : (str "SELECT ").length = 7 := rfl
    have hlen : 2 ≤ ((if hU then ['('] else []) ++ appendWithText c1.with_ ++
        str "SELECT " ++ distinctText c1 ++ mssqlHackText f c1).length := by
      simp only [List.length_append]
      omega
    obtain ⟨t, ht⟩ := appendColumnsSection_extends f c1 ijs
      (b ++ (if cte then str "WITH _count_wrapper AS (" else []))
      ((if hU then ['('] else []) ++ appendWithText c1.with_ ++ str "SELECT " ++
        distinctText c1 ++ mssqlHackText f c1) hlen
    refine ⟨t ++ postColsText f c1 ijs count, ?_⟩
    have harg : b ++ preColsText c1 hU cte ++ mssqlHackText f c1 =
        (b ++ (if cte then str "WITH _count_wrapper AS (" else [])) ++
        ((if hU then ['('] else []) ++ appendWithText c1.with_ ++ str "SELECT " ++
          distinctText c1 ++ mssqlHackText f c1) := by
      simp [preColsText, List.append_assoc]
    rw [harg, ht]
    simp [List.append_assoc]

/-- The comment block extends its buffer. -/
theorem appendComment_extends (b : List Char) (s : String) :
    ∃ t, appendComment b s = b ++ t := by
  unfold appendComment
  split
  · exact ⟨[], by simp⟩
  · exact ⟨str "/* " ++ str s ++ str " */ ", by simp [List.append_assoc]⟩

/-- The union branches extend the buffer, given that every operand's
render extends its own buffer. -/
theorem unionTail_extends :
    ∀ (us : List UnionEntry) (f : Fmter) (b out : List Char),
      (∀ u ∈ us, ∀ b' out',
        (SelectQuery.appendQuery f u.query b' false).2 = Except.ok out' →
          ∃ t, out' = b' ++ t) →
      (unionTail f us b).2 = Except.ok out → ∃ t, out = b ++ t := by
  intro us
  induction us with
  | nil =>
      intro f b out _ h
      simp only [unionTail, Except.ok.injEq] at h
      exact ⟨[], by simp [h]⟩
  | cons u rest ih =>
      intro f b out hmem h
      obtain ⟨expr, uq⟩ := u
      simp only [unionTail] at h
      rcases hq : SelectQuery.appendQuery f uq
          (appendComment (b ++ str expr ++ ['(']) uq.core.comment) false with ⟨uq1, r⟩
      rw [hq] at h
      cases r with
      | error e => simp at h
      | ok b1 =>
          simp only at h
          obtain ⟨t2, ht2⟩ := ih f (b1 ++ [')']) out
            (fun u' hu' => hmem u' (List.mem_cons_of_mem _ hu')) h
          have hq2 : (SelectQuery.appendQuery f uq
              (appendComment (b ++ str expr ++ ['(']) uq.core.comment) false).2 =
              Except.ok b1 := by rw [hq]
          obtain ⟨t1, ht1⟩ := hmem ⟨expr, uq⟩ (List.mem_cons_self _ _) _ _ hq2
          obtain ⟨tc, htc⟩ := appendComment_extends (b ++ str expr ++ ['('])
            uq.core.comment
          refine ⟨str expr ++ ['('] ++ tc ++ t1 ++ [')'] ++ t2, ?_⟩
          rw [ht2, ht1, htc]
          simp [List.append_assoc]

/-- A successful render extends its input buffer: the output is the buffer
plus appended text (no byte of the caller's buffer is overwritten). -/
theorem appendQuery_extends :
    ∀ (q : SelectQuery) (f : Fmter) (b : List Char) (count : Bool)
      (out : List Char),
      (SelectQuery.appendQuery f q b count).2 = Except.ok out →
      ∃ t, out = b ++ t := by
  have main : ∀ (N : Nat) (q : SelectQuery), sizeOf q ≤ N → ∀ f b count out,
      (SelectQuery.appendQuery f q b count).2 = Except.ok out →
      ∃ t, out = b ++ t := by
    intro N
    induction N with
    | zero =>
        intro q hq
        obtain ⟨core, us⟩ := q
        simp [SelectQuery.mk.sizeOf_spec] at hq
    | succ N ih =>
        intro q hq f b count out h
        obtain ⟨core, us⟩ := q
        cases herr : core.err with
        | some e => simp [SelectQuery.appendQuery, herr] at h
        | none =>
            simp only [SelectQuery.appendQuery, herr] at h
            obtain ⟨tm, htm⟩ := appendQueryMid_extends f (applyPhase core)
              (coreInlineJoins (applyPhase core)) (us.length > 0)
              (count && (core.group.length > 0 || core.distinctOn.isSome)) count b
            have hpt : ∀ u' ∈ us, ∀ b' out',
                (SelectQuery.appendQuery f u'.query b' false).2 =
                  Except.ok out' → ∃ t, out' = b' ++ t := by
              intro u' hu' b' out' h'
              have hs1 : sizeOf u' < sizeOf us := List.sizeOf_lt_of_mem hu'
              have hs2 : sizeOf (UnionEntry.query u') < sizeOf u' := by
                obtain ⟨e', uq'⟩ := u'
                simp [UnionEntry.query]
              have hs3 : sizeOf us < sizeOf (SelectQuery.mk core us) := by
                simp
              exact ih u'.query (by omega) f b' false out' h'
            rcases hscrut : (if us.isEmpty then
                (us, Except.ok (appendQueryMid f (applyPhase core)
                  (coreInlineJoins (applyPhase core)) (us.length > 0)
                  (count && (core.group.length > 0 || core.distinctOn.isSome))
                  count b))
              else unionTail f us (appendQueryMid f (applyPhase core)
                  (coreInlineJoins (applyPhase core)) (us.length > 0)
                  (count && (core.group.length > 0 || core.distinctOn.isSome))
                  count b ++ [')'])) with ⟨us1, r⟩
            rw [hscrut] at h
            cases r with
            | error e => simp at h
            | ok b1 =>
                have hb1 : ∃ t', b1 =
                    (b ++ (if (count && (core.group.length > 0 ||
                        core.distinctOn.isSome)) then
                      str "WITH _count_wrapper AS (" else [])) ++ t' := by
                  by_cases hus : us.isEmpty
                  · rw [if_pos hus] at hscrut
                    simp only [Prod.mk.injEq, Except.ok.injEq] at hscrut
                    exact ⟨tm, by rw [← hscrut.2, htm]⟩
                  · rw [if_neg hus] at hscrut
                    obtain ⟨t2, ht2⟩ := unionTail_extends us f _ b1 hpt
                      (by rw [hscrut])
                    rw [htm] at ht2
                    exact ⟨tm ++ [')'] ++ t2, by rw [ht2]; simp⟩
                obtain ⟨t', ht'⟩ := hb1
                simp only [Except.ok.injEq] at h
                cases hcte : (count && (decide (core.group.length > 0) ||
                    core.distinctOn.isSome)) with
                | false =>
                    rw [hcte] at h ht'
                    simp only [Bool.false_eq_true, if_false] at h ht'
                    exact ⟨t', by rw [← h, ht']; simp⟩
                | true =>
                    rw [hcte] at h ht'
                    simp only [if_true] at h ht'
                    refine ⟨str "WITH _count_wrapper AS (" ++ t' ++
                      str ") SELECT count(*) FROM _count_wrapper", ?_⟩
                    rw [← h, ht']
                    simp
  intro q f b count out h
  exact main (sizeOf q) q le_rfl f b count out h

/-! ## C5 -/

/-- C5: `Exists` dispatches on the `SelectExists` capability — with it, the
native `SELECT EXISTS (...)` statement is rendered; without it, the
portable `SELECT 1 WHERE EXISTS (...)` statement is rendered and executed
with `Exec`, and the result is true exactly when the affected-row count
equals 1 (so a query matching zero rows yields `false` with no error). -/
theorem c5_exists_capability_gating (f : Fmter) (ad : Adapter)
    (q : SelectQuery) (h : q.core.err = none) :
    (f.hasFeature Feature.SelectExists = true →
      SelectQuery.Exists f ad q = SelectQuery.selectExists f ad q ∧
      ∀ out, (selectExistsAppendQuery f q []).2 = Except.ok out →
        ∃ t, out = str "SELECT EXISTS (" ++ t ++ [')']) ∧
    (f.hasFeature Feature.SelectExists = false →
      SelectQuery.Exists f ad q = SelectQuery.whereExists f ad q ∧
      (∀ out, (whereExistsAppendQuery f q []).2 = Except.ok out →
        ∃ t, out = str "SELECT 1 WHERE EXISTS (" ++ t ++ [')']) ∧
      (∀ out res, (whereExistsAppendQuery f q []).2 = Except.ok out →
        ad.exec out = (res, none) → res.rowsAffectedErr = none →
        SelectQuery.Exists f ad q =
          ((whereExistsAppendQuery f q []).1, res.rowsAffected == 1, none))) := by
  obtain ⟨core, us⟩ := q
  simp only [SelectQuery.core] at h
  constructor
  · intro hf
    constructor
    · simp [SelectQuery.Exists, SelectQuery.core, h, hf]
    · intro out hout
      simp only [selectExistsAppendQuery, SelectQuery.core, h] at hout
      rcases hp : (SelectQuery.appendQuery f (SelectQuery.mk core us)
          ([] ++ str "SELECT EXISTS (") false) with ⟨q1, r⟩
      rw [hp] at hout
      cases r with
      | error e => simp at hout
      | ok b1 =>
          simp only [Except.ok.injEq] at hout
          obtain ⟨t, ht⟩ := appendQuery_extends (SelectQuery.mk core us) f
            ([] ++ str "SELECT EXISTS (") false b1 (by rw [hp])
          exact ⟨t, by rw [← hout, ht]; simp⟩
  · intro hf
    refine ⟨?_, ?_, ?_⟩
    · simp [SelectQuery.Exists, SelectQuery.core, h, hf]
    · intro out hout
      simp only [whereExistsAppendQuery, SelectQuery.core, h] at hout
      rcases hp : (SelectQuery.appendQuery f (SelectQuery.mk core us)
          ([] ++ str "SELECT 1 WHERE EXISTS (") false) with ⟨q1, r⟩
      rw [hp] at hout
      cases r with
      | error e => simp at hout
      | ok b1 =>
          simp only [Except.ok.injEq] at hout
          obtain ⟨t, ht⟩ := appendQuery_extends (SelectQuery.mk core us) f
            ([] ++ str "SELECT 1 WHERE EXISTS (") false b1 (by rw [hp])
          exact ⟨t, by rw [← hout, ht]; simp⟩
    · intro out res hout hexec hra
      have hgate : SelectQuery.Exists f ad (SelectQuery.mk core us) =
          SelectQuery.whereExists f ad (SelectQuery.mk core us) := by
        simp [SelectQuery.Exists, SelectQuery.core, h, hf]
      rw [hgate]
      rcases hp : whereExistsAppendQuery f (SelectQuery.mk core us) [] with ⟨q1, r⟩
      rw [hp] at hout
      cases r with
      | error e => simp at hout
      | ok b1 =>
          simp only [Except.ok.injEq] at hout
          subst hout
          simp [SelectQuery.whereExists, hp, hexec, hra]

/-- C5 (witness): the gating applied to a concrete query — on a featureless
dialect `Exists` takes the portable `whereExists` path; on the pg dialect
(which declares `SelectExists`) it takes the native path. -/
theorem c5_exists_capability_gating_witness :
    SelectQuery.Exists (Fmter.mk DialectName.sqlite [] false) zeroAdapter
        (SelectQuery.Table NewSelectQuery ["t"]) =
      SelectQuery.whereExists (Fmter.mk DialectName.sqlite [] false) zeroAdapter
        (SelectQuery.Table NewSelectQuery ["t"]) ∧
    SelectQuery.Exists pgFmter zeroAdapter
        (SelectQuery.Table NewSelectQuery ["t"]) =
      SelectQuery.selectExists pgFmter zeroAdapter
        (SelectQuery.Table NewSelectQuery ["t"]) := by
  constructor
  · exact ((c5_exists_capability_gating (Fmter.mk DialectName.sqlite [] false)
      zeroAdapter (SelectQuery.Table NewSelectQuery ["t"]) rfl).2 (by decide)).1
  · exact ((c5_exists_capability_gating pgFmter zeroAdapter
      (SelectQuery.Table NewSelectQuery ["t"]) rfl).1 (by decide)).1

/-! ## Apply-phase preservation lemmas -/

/-- Refinement ops touch only the where list and column list: the DISTINCT
state and WITH clause pass through. -/
theorem applyOpsRun_pres : ∀ (ops : List ApplyOp) (c : SQCore),
    (applyOpsRun ops c).distinctOn = c.distinctOn ∧
    (applyOpsRun ops c).with_ = c.with_
  | [], c => by simp [applyOpsRun]
  | op :: rest, c => by
      have h1 : (applyOp c op).distinctOn = c.distinctOn ∧
          (applyOp c op).with_ = c.with_ := by
        cases op <;> simp [applyOp]
      have h2 := applyOpsRun_pres rest (applyOp c op)
      have hstep : applyOpsRun (op :: rest) c = applyOpsRun rest (applyOp c op) := rfl
      exact ⟨by rw [hstep, h2.1, h1.1], by rw [hstep, h2.2, h1.2]⟩

/-- `applyTo` preserves the DISTINCT state and WITH clause of the primary
query. -/
theorem applyTo_pres (j : RelationJoin) (c : SQCore) :
    (RelationJoin.applyTo j c).2.distinctOn = c.distinctOn ∧
    (RelationJoin.applyTo j c).2.with_ = c.with_ := by
  unfold RelationJoin.applyTo
  split
  · simp
  · have h := applyOpsRun_pres j.apply
      { c with table := some j.joinModel.table, columns := none }
    simpa using h

mutual
/-- The apply-phase walk preserves the DISTINCT state and WITH clause. -/
theorem applyToJoinList_pres : ∀ (js : List RelationJoin) (c : SQCore),
    (applyToJoinList c js).1.distinctOn = c.distinctOn ∧
    (applyToJoinList c js).1.with_ = c.with_
  | [], c => by simp [applyToJoinList]
  | j :: rest, c => by
      have h1 := applyToJoinOne_pres j c
      have h2 := applyToJoinList_pres rest (applyToJoinOne c j).1
      simp only [applyToJoinList]
      exact ⟨h2.1.trans h1.1, h2.2.trans h1.2⟩

/-- One step of the walk preserves the DISTINCT state and WITH clause. -/
theorem applyToJoinOne_pres : ∀ (j : RelationJoin) (c : SQCore),
    (applyToJoinOne c j).1.distinctOn = c.distinctOn ∧
    (applyToJoinOne c j).1.with_ = c.with_
  | RelationJoin.mk n rt conds (TableModel.mk tbl js) ops cols addOn, c => by
      cases rt with
      | hasOne =>
          have h1 := applyTo_pres
            (RelationJoin.mk n RelType.hasOne conds (TableModel.mk tbl js) ops cols addOn) c
          have h2 := applyToJoinList_pres js
            ((RelationJoin.mk n RelType.hasOne conds
              (TableModel.mk tbl js) ops cols addOn).applyTo c).2
          simp only [applyToJoinOne]
          exact ⟨h2.1.trans h1.1, h2.2.trans h1.2⟩
      | belongsTo =>
          have h1 := applyTo_pres
            (RelationJoin.mk n RelType.belongsTo conds (TableModel.mk tbl js) ops cols addOn) c
          have h2 := applyToJoinList_pres js
            ((RelationJoin.mk n RelType.belongsTo conds
              (TableModel.mk tbl js) ops cols addOn).applyTo c).2
          simp only [applyToJoinOne]
          exact ⟨h2.1.trans h1.1, h2.2.trans h1.2⟩
      | hasMany => simp [applyToJoinOne]
      | manyToMany => simp [applyToJoinOne]
end

/-- The whole apply phase preserves the DISTINCT state and WITH clause. -/
theorem applyPhase_pres (c : SQCore) :
    (applyPhase c).distinctOn = c.distinctOn ∧
    (applyPhase c).with_ = c.with_ := by
  unfold applyPhase
  cases htm : c.tableModel with
  | none => simp
  | some tm =>
      cases tm with
      | mk tbl js =>
          have h := applyToJoinList_pres js c
          simpa using h

/-- The count-without-wrapper pipeline in closed form. -/
theorem appendQueryMid_count_noCte (f : Fmter) (c1 : SQCore)
    (ijs : List RelationJoin) (hU : Bool) (b : List Char) :
    appendQueryMid f c1 ijs hU false true b =
      b ++ (if hU then ['('] else []) ++ appendWithText c1.with_ ++
        str "SELECT " ++ distinctText c1 ++ str "count(*)" ++
        postColsText f c1 ijs true := by
  unfold appendQueryMid preColsText
  simp [List.append_assoc]

/-! ## C3 -/

/-- C3 (counterexample): a plain `Distinct()` (no ON-list: `distinctOn` is
the empty non-nil list, no GROUP BY) does trigger the count-wrapper CTE,
refuting the claim that the wrapper fires only on GROUP BY or DISTINCT ON. -/
theorem c3_plain_distinct_wrapper_counterexample :
    (SelectQuery.Distinct (SelectQuery.Table NewSelectQuery ["users"])).core.group
      = [] ∧
    (SelectQuery.Distinct (SelectQuery.Table NewSelectQuery ["users"])).core.distinctOn
      = some [] ∧
    (countQueryAppendQuery pgFmter
        (SelectQuery.Distinct (SelectQuery.Table NewSelectQuery ["users"])) []).2 =
      Except.ok (str "WITH _count_wrapper AS (SELECT DISTINCT * FROM users) SELECT count(*) FROM _count_wrapper") :=
  ⟨rfl, rfl, rfl⟩

/-- C3 (amended): `Count` rendering wraps the statement in the
`_count_wrapper` common-table-expression exactly when the query has a
GROUP BY clause or a non-nil `distinctOn` — the latter covers both
`DISTINCT ON (...)` and a plain `Distinct()` (which stores an empty,
non-nil ON-list); in all other cases count renders `SELECT count(*)`
directly after the optional set-operation paren and WITH clause. -/
theorem c3_count_wrapper_amended (f : Fmter) (q : SelectQuery) (b : List Char)
    (h : q.core.err = none) :
    ((q.core.group.length > 0 || q.core.distinctOn.isSome) = true →
      ∀ out, (countQueryAppendQuery f q b).2 = Except.ok out →
        ∃ mid, out = b ++ str "WITH _count_wrapper AS (" ++ mid ++
          str ") SELECT count(*) FROM _count_wrapper") ∧
    ((q.core.group.length > 0 || q.core.distinctOn.isSome) = false →
      ∀ out, (countQueryAppendQuery f q b).2 = Except.ok out →
        ∃ tail, out = b ++ (if q.union.length > 0 then ['('] else []) ++
          appendWithText q.core.with_ ++ str "SELECT count(*)" ++ tail) := by
  obtain ⟨core, us⟩ := q
  simp only [SelectQuery.core, SelectQuery.union] at h ⊢
  have hpt : ∀ u' ∈ us, ∀ b' out',
      (SelectQuery.appendQuery f u'.query b' false).2 = Except.ok out' →
        ∃ t, out' = b' ++ t :=
    fun u' _ b' out' h' => appendQuery_extends u'.query f b' false out' h'
  constructor
  · intro hc out hout
    simp only [countQueryAppendQuery, SelectQuery.core, h] at hout
    simp only [SelectQuery.appendQuery, h] at hout
    obtain ⟨tm, htm⟩ := appendQueryMid_extends f (applyPhase core)
      (coreInlineJoins (applyPhase core)) (us.length > 0)
      (true && (core.group.length > 0 || core.distinctOn.isSome)) true b
    have hcond : (true && (decide (core.group.length > 0) ||
        core.distinctOn.isSome)) = true := by simp [hc]
    rw [if_pos hcond] at htm
    rcases hscrut : (if us.isEmpty then
        (us, Except.ok (appendQueryMid f (applyPhase core)
          (coreInlineJoins (applyPhase core)) (us.length > 0)
          (true && (core.group.length > 0 || core.distinctOn.isSome)) true b))
      else unionTail f us (appendQueryMid f (applyPhase core)
          (coreInlineJoins (applyPhase core)) (us.length > 0)
          (true && (core.group.length > 0 || core.distinctOn.isSome)) true b ++ [')']))
      with ⟨us1, r⟩
    rw [hscrut] at hout
    cases r with
    | error e => simp at hout
    | ok b1 =>
        have hb1 : ∃ t', b1 = (b ++ str "WITH _count_wrapper AS (") ++ t' := by
          by_cases hus : us.isEmpty
          · rw [if_pos hus] at hscrut
            simp only [Prod.mk.injEq, Except.ok.injEq] at hscrut
            exact ⟨tm, by rw [← hscrut.2, htm]⟩
          · rw [if_neg hus] at hscrut
            obtain ⟨t2, ht2⟩ := unionTail_extends us f _ b1 hpt (by rw [hscrut])
            rw [htm] at ht2
            exact ⟨tm ++ [')'] ++ t2, by rw [ht2]; simp⟩
        obtain ⟨t', ht'⟩ := hb1
        simp only [Except.ok.injEq] at hout
        rw [if_pos hcond] at hout
        exact ⟨t', by rw [← hout, ht']⟩
  · intro hc out hout
    simp only [countQueryAppendQuery, SelectQuery.core, h] at hout
    simp only [SelectQuery.appendQuery, h] at hout
    have hdn : core.distinctOn = none := by
      rcases hdd : core.distinctOn with _ | l
      · rfl
      · rw [hdd] at hc; simp at hc
    have hpres := applyPhase_pres core
    have hdistinct : distinctText (applyPhase core) = [] := by
      unfold distinctText
      rw [hpres.1, hdn]
    have hmid := appendQueryMid_count_noCte f (applyPhase core)
      (coreInlineJoins (applyPhase core)) (us.length > 0) b
    rcases hscrut : (if us.isEmpty then
        (us, Except.ok (appendQueryMid f (applyPhase core)
          (coreInlineJoins (applyPhase core)) (us.length > 0)
          (true && (core.group.length > 0 || core.distinctOn.isSome)) true b))
      else unionTail f us (appendQueryMid f (applyPhase core)
          (coreInlineJoins (applyPhase core)) (us.length > 0)
          (true && (core.group.length > 0 || core.distinctOn.isSome)) true b ++ [')']))
      with ⟨us1, r⟩
    rw [hscrut] at hout
    cases r with
    | error e => simp at hout
    | ok b1 =>
        have hcte0 : (true && (core.group.length > 0 || core.distinctOn.isSome))
            = false := by simp [hc]
        have hb1 : ∃ rest, b1 = appendQueryMid f (applyPhase core)
            (coreInlineJoins (applyPhase core)) (us.length > 0)
            (true && (core.group.length > 0 || core.distinctOn.isSome)) true b
            ++ rest := by
          by_cases hus : us.isEmpty
          · rw [if_pos hus] at hscrut
            simp only [Prod.mk.injEq, Except.ok.injEq] at hscrut
            exact ⟨[], by rw [← hscrut.2]; simp⟩
          · rw [if_neg hus] at hscrut
            obtain ⟨t2, ht2⟩ := unionTail_extends us f _ b1 hpt (by rw [hscrut])
            exact ⟨[')'] ++ t2, by rw [ht2]; simp⟩
        obtain ⟨rest, hrest⟩ := hb1
        rw [hcte0] at hrest
        rw [hmid, hpres.2, hdistinct] at hrest
        simp only [decide_eq_true_eq] at hrest
        simp only [Except.ok.injEq] at hout
        rw [hcte0] at hout
        simp only [Bool.false_eq_true, if_false] at hout
        refine ⟨postColsText f (applyPhase core)
          (coreInlineJoins (applyPhase core)) true ++ rest, ?_⟩
        rw [← hout, hrest]
        have hsel : str "SELECT " ++ (str "count(*)" : List Char) =
            str "SELECT count(*)" := rfl
        simp only [List.append_nil, List.append_assoc]
        rw [show (str "SELECT " : List Char) ++ (str "count(*)" ++
          (postColsText f (applyPhase core) (coreInlineJoins (applyPhase core)) true ++ rest)) =
          str "SELECT count(*)" ++ (postColsText f (applyPhase core)
            (coreInlineJoins (applyPhase core)) true ++ rest) from by
          rw [← List.append_assoc, hsel]]

/-- C3 (witness): the amended theorem applied to a concrete grouped query:
its count render carries the wrapper. -/
theorem c3_count_wrapper_amended_witness :
    ∃ mid, (countQueryAppendQuery pgFmter
        (SelectQuery.Group (SelectQuery.Table NewSelectQuery ["users"]) ["city"])
        []).2.toOption.get! = [] ++ str "WITH _count_wrapper AS (" ++ mid ++
      str ") SELECT count(*) FROM _count_wrapper" := by
  have h := (c3_count_wrapper_amended pgFmter
    (SelectQuery.Group (SelectQuery.Table NewSelectQuery ["users"]) ["city"])
    [] rfl).1 (by decide)
  exact h _ rfl

/-! ## C4 -/

/-- With a nil refinement, `applyTo` changes nothing. -/
theorem applyTo_noop (j : RelationJoin) (c : SQCore) (h : j.apply.isEmpty = true) :
    RelationJoin.applyTo j c = (j, c) := by
  unfold RelationJoin.applyTo
  rw [if_pos h]

mutual
/-- With nil refinements throughout, the apply-phase walk changes nothing. -/
theorem applyToJoinList_noop : ∀ (js : List RelationJoin) (c : SQCore),
    joinsNoApply js = true → applyToJoinList c js = (c, js)
  | [], c, _ => by simp [applyToJoinList]
  | j :: rest, c, h => by
      have hj : joinNoApply j = true ∧ joinsNoApply rest = true := by
        simpa [joinsNoApply, Bool.and_eq_true] using h
      have h1 := applyToJoinOne_noop j c hj.1
      have h2 := applyToJoinList_noop rest c hj.2
      simp [applyToJoinList, h1, h2]

/-- With nil refinements throughout, one step of the walk changes nothing. -/
theorem applyToJoinOne_noop : ∀ (j : RelationJoin) (c : SQCore),
    joinNoApply j = true → applyToJoinOne c j = (c, j)
  | RelationJoin.mk n rt conds (TableModel.mk tbl js) ops cols addOn, c, h => by
      cases rt with
      | hasOne =>
          have hj : ops.isEmpty = true ∧ joinsNoApply js = true := by
            simpa [joinNoApply, Bool.and_eq_true] using h
          have h1 := applyTo_noop
            (RelationJoin.mk n RelType.hasOne conds (TableModel.mk tbl js) ops cols addOn)
            c (by simpa [RelationJoin.apply] using hj.1)
          have h2 := applyToJoinList_noop js c hj.2
          simp [applyToJoinOne, h1, h2, RelationJoin.withJoinModelJoins]
      | belongsTo =>
          have hj : ops.isEmpty = true ∧ joinsNoApply js = true := by
            simpa [joinNoApply, Bool.and_eq_true] using h
          have h1 := applyTo_noop
            (RelationJoin.mk n RelType.belongsTo conds (TableModel.mk tbl js) ops cols addOn)
            c (by simpa [RelationJoin.apply] using hj.1)
          have h2 := applyToJoinList_noop js c hj.2
          simp [applyToJoinOne, h1, h2, RelationJoin.withJoinModelJoins]
      | hasMany => simp [applyToJoinOne]
      | manyToMany => simp [applyToJoinOne]
end

/-- With nil refinements, the apply phase leaves the query state
unchanged. -/
theorem applyPhase_noop (c : SQCore)
    (h : (match c.tableModel with
          | none => true
          | some (TableModel.mk _ js) => joinsNoApply js) = true) :
    applyPhase c = c := by
  cases htm : c.tableModel with
  | none => unfold applyPhase; rw [htm]
  | some tm =>
      cases tm with
      | mk tbl js =>
          rw [htm] at h
          unfold applyPhase
          rw [htm]
          simp only [applyToJoinList_noop js c h]
          rw [← htm]

/-- When no operand's render mutates it, the union walk returns the
operand list unchanged (whether or not it errs). -/
theorem unionTail_fst : ∀ (us : List UnionEntry) (f : Fmter) (b : List Char),
    (∀ u ∈ us, ∀ b',
      (SelectQuery.appendQuery f u.query b' false).1 = u.query) →
    (unionTail f us b).1 = us := by
  intro us
  induction us with
  | nil => intro f b _; simp [unionTail]
  | cons u rest ih =>
      intro f b hmem
      obtain ⟨expr, uq⟩ := u
      simp only [unionTail]
      have hhd : (SelectQuery.appendQuery f uq
          (appendComment (b ++ str expr ++ ['(']) uq.core.comment) false).1 = uq :=
        hmem ⟨expr, uq⟩ (List.mem_cons_self _ _) _
      rcases hp : SelectQuery.appendQuery f uq
          (appendComment (b ++ str expr ++ ['(']) uq.core.comment) false with ⟨uq1, r⟩
      rw [hp] at hhd
      simp only at hhd
      subst hhd
      cases r with
      | error e => simp
      | ok b1 =>
          simp only
          rw [ih f (b1 ++ [')'])
            (fun u' hu' b' => hmem u' (List.mem_cons_of_mem _ hu') b')]

/-- Rendering a query whose inline joins (and union operands, recursively)
carry no apply refinement returns the query unchanged. -/
theorem appendQuery_fst :
    ∀ (q : SelectQuery) (f : Fmter) (b : List Char) (count : Bool),
      noApplyOps q = true → (SelectQuery.appendQuery f q b count).1 = q := by
  have main : ∀ (N : Nat) (q : SelectQuery), sizeOf q ≤ N → ∀ f b count,
      noApplyOps q = true → (SelectQuery.appendQuery f q b count).1 = q := by
    intro N
    induction N with
    | zero =>
        intro q hq
        obtain ⟨core, us⟩ := q
        simp [SelectQuery.mk.sizeOf_spec] at hq
    | succ N ih =>
        intro q hq f b count hnoop
        obtain ⟨core, us⟩ := q
        have hparts : (match core.tableModel with
            | none => true
            | some (TableModel.mk _ js) => joinsNoApply js) = true ∧
            unionsNoApply us = true := by
          simpa [noApplyOps, Bool.and_eq_true] using hnoop
        have hphase := applyPhase_noop core hparts.1
        have humem : ∀ u ∈ us, ∀ b',
            (SelectQuery.appendQuery f u.query b' false).1 = u.query := by
          intro u hu b'
          have hs1 : sizeOf u < sizeOf us := List.sizeOf_lt_of_mem hu
          have hs2 : sizeOf (UnionEntry.query u) < sizeOf u := by
            obtain ⟨e', uq'⟩ := u
            simp [UnionEntry.query]
          have hs3 : sizeOf us < sizeOf (SelectQuery.mk core us) := by simp
          have hnq : noApplyOps u.query = true := by
            have : ∀ (l : List UnionEntry), unionsNoApply l = true →
                ∀ u' ∈ l, noApplyOps u'.query = true := by
              intro l
              induction l with
              | nil => intro _ u' hu'; simp at hu'
              | cons v rest ihl =>
                  intro hl u' hu'
                  obtain ⟨ev, qv⟩ := v
                  have hl' : noApplyOps qv = true ∧ unionsNoApply rest = true := by
                    simpa [unionsNoApply, Bool.and_eq_true] using hl
                  rcases List.mem_cons.mp hu' with rfl | hmem'
                  · exact hl'.1
                  · exact ihl hl'.2 u' hmem'
            exact this us hparts.2 u hu
          exact ih u.query (by omega) f b' false hnq
        rcases hq2 : SelectQuery.appendQuery f (SelectQuery.mk core us) b count
          with ⟨q1, r2⟩
        show q1 = SelectQuery.mk core us
        cases herr : core.err with
        | some e =>
            simp only [SelectQuery.appendQuery, herr] at hq2
            simp only [Prod.mk.injEq] at hq2
            exact hq2.1.symm
        | none =>
            simp only [SelectQuery.appendQuery, herr] at hq2
            by_cases hus : us.isEmpty
            · rw [if_pos hus] at hq2
              simp only [Prod.mk.injEq] at hq2
              rw [← hq2.1, hphase]
            · rw [if_neg hus] at hq2
              rcases hu : unionTail f us (appendQueryMid f (applyPhase core)
                  (coreInlineJoins (applyPhase core)) (us.length > 0)
                  (count && (core.group.length > 0 || core.distinctOn.isSome))
                  count b ++ [')']) with ⟨us1, r3⟩
              have htf := unionTail_fst us f
                (appendQueryMid f (applyPhase core)
                  (coreInlineJoins (applyPhase core)) (us.length > 0)
                  (count && (core.group.length > 0 || core.distinctOn.isSome))
                  count b ++ [')']) humem
              rw [hu] at hq2 htf
              simp only at htf
              cases r3 with
              | error e =>
                  simp only [Prod.mk.injEq] at hq2
                  rw [← hq2.1, hphase, htf]
              | ok b1 =>
                  simp only [Prod.mk.injEq] at hq2
                  rw [← hq2.1, hphase, htf]
  intro q f b count h
  exact main (sizeOf q) q le_rfl f b count h

/-- C4 (counterexample): rendering a query with an inline to-one relation
whose apply refinement adds a filter is not idempotent — the second render
re-applies the filter, duplicating the WHERE condition, and the render
mutates the query state. -/
theorem c4_render_not_idempotent_counterexample :
    (SelectQuery.AppendQuery pgFmter qProfileRelation []).2 =
      Except.ok (str "SELECT u.id, u.name, \"Profile\".id AS \"Profile__id\" FROM \"users\" AS \"u\" LEFT JOIN \"profiles\" AS \"Profile\" ON (TRUE) WHERE (p.active = TRUE)") ∧
    (SelectQuery.AppendQuery pgFmter
        ((SelectQuery.AppendQuery pgFmter qProfileRelation []).1) []).2 =
      Except.ok (str "SELECT u.id, u.name, \"Profile\".id AS \"Profile__id\" FROM \"users\" AS \"u\" LEFT JOIN \"profiles\" AS \"Profile\" ON (TRUE) WHERE (p.active = TRUE) AND (p.active = TRUE)") ∧
    (SelectQuery.AppendQuery pgFmter qProfileRelation []).2 ≠
      (SelectQuery.AppendQuery pgFmter
        ((SelectQuery.AppendQuery pgFmter qProfileRelation []).1) []).2 ∧
    (SelectQuery.AppendQuery pgFmter qProfileRelation []).1 ≠ qProfileRelation := by
  refine ⟨rfl, rfl, ?_, ?_⟩
  · intro heq
    rw [show (SelectQuery.AppendQuery pgFmter qProfileRelation []).2 =
        Except.ok (str "SELECT u.id, u.name, \"Profile\".id AS \"Profile__id\" FROM \"users\" AS \"u\" LEFT JOIN \"profiles\" AS \"Profile\" ON (TRUE) WHERE (p.active = TRUE)") from rfl,
      show (SelectQuery.AppendQuery pgFmter
          ((SelectQuery.AppendQuery pgFmter qProfileRelation []).1) []).2 =
        Except.ok (str "SELECT u.id, u.name, \"Profile\".id AS \"Profile__id\" FROM \"users\" AS \"u\" LEFT JOIN \"profiles\" AS \"Profile\" ON (TRUE) WHERE (p.active = TRUE) AND (p.active = TRUE)") from rfl] at heq
    exact absurd (Except.ok.inj heq) (by decide)
  · intro heq
    have hw := congrArg (fun q => q.core.where_) heq
    exact absurd hw (by decide)

/-- C4 (amended): rendering is a pure function of the query state, and for
a query none of whose inline to-one relation joins (nor union operands,
recursively) carries an apply refinement, `AppendQuery` leaves the query
unchanged, so repeated rendering yields byte-identical output; when a
relation apply refinement is present, the render re-applies it to the
query state (see the counterexample), so idempotence holds exactly in its
absence. -/
theorem c4_render_idempotent_amended (f : Fmter) (q : SelectQuery)
    (b : List Char) (h : noApplyOps q = true) :
    (SelectQuery.AppendQuery f q b).1 = q ∧
    (SelectQuery.AppendQuery f ((SelectQuery.AppendQuery f q b).1) b).2 =
      (SelectQuery.AppendQuery f q b).2 := by
  have h1 : (SelectQuery.AppendQuery f q b).1 = q := by
    unfold SelectQuery.AppendQuery
    exact appendQuery_fst q f (appendComment b q.core.comment) false h
  exact ⟨h1, by rw [h1]⟩

/-- C4 (witness): the amended theorem applied to a concrete query bound to
the `users` model (inline `Profile` join present, no apply refinement). -/
theorem c4_render_idempotent_amended_witness :
    (SelectQuery.AppendQuery pgFmter
        (SelectQuery.Model NewSelectQuery usersModel) []).1 =
      SelectQuery.Model NewSelectQuery usersModel ∧
    (SelectQuery.AppendQuery pgFmter
        ((SelectQuery.AppendQuery pgFmter
          (SelectQuery.Model NewSelectQuery usersModel) []).1) []).2 =
      (SelectQuery.AppendQuery pgFmter
        (SelectQuery.Model NewSelectQuery usersModel) []).2 :=
  c4_render_idempotent_amended pgFmter
    (SelectQuery.Model NewSelectQuery usersModel) [] (by decide)

/-! ## C7 -/

/-- Case analysis of the statements a `scanResult` issues: nothing (an
error before the primary scan); the primary statement followed by the
deferred-relation statements, only under a successful scan with a positive
affected-row count; or the primary statement alone, when the scan failed
or affected no rows. -/
theorem scanResult_trace_spec (f : Fmter) (ad : Adapter) (q : SelectQuery)
    (hasDest : Bool) :
    ((SelectQuery.scanResult f ad q hasDest).2.1 = []) ∨
    (∃ sql res, ad.scanQuery sql = (res, none) ∧ 0 < res.rowsAffected ∧
      ∃ jr, (SelectQuery.scanResult f ad q hasDest).2.1 = Stmt.primary sql :: jr ∧
        ((∃ tm, ((SelectQuery.AppendQuery f q []).1).core.tableModel = some tm ∧
            jr = (selectJoinsList ad tm.getJoins).1) ∨
         (((SelectQuery.AppendQuery f q []).1).core.tableModel = none ∧ jr = []))) ∨
    (∃ sql, (SelectQuery.scanResult f ad q hasDest).2.1 = [Stmt.primary sql] ∧
      ¬ (0 < ((ad.scanQuery sql).1).rowsAffected ∧ (ad.scanQuery sql).2 = none)) := by
  simp only [SelectQuery.scanResult]
  split
  · left; rfl
  · split
    · left; rfl
    · split
      · left; rfl
      · split
        · left; rfl
        · split
          · left; rfl
          · rename_i query hok
            split
            · rename_i e hse
              right; right
              exact ⟨query, rfl, fun hc => by rw [hse] at hc; exact absurd hc.2 (by simp)⟩
            · rename_i hse
              by_cases hn : ((ad.scanQuery query).1).rowsAffected > 0
              · right; left
                refine ⟨query, (ad.scanQuery query).1, ?_, hn, ?_⟩
                · rw [← hse]
                · cases htm : ((SelectQuery.AppendQuery f q []).1).core.tableModel with
                  | some tm =>
                      refine ⟨(selectJoinsList ad tm.getJoins).1, ?_, Or.inl ⟨tm, rfl, rfl⟩⟩
                      rw [if_pos hn]
                      split
                      · simp
                      · split <;> simp
                  | none =>
                      refine ⟨[], ?_, Or.inr ⟨rfl, rfl⟩⟩
                      rw [if_pos hn]
                      split
                      · simp
                      · split <;> simp
              · right; right
                refine ⟨query, ?_, fun hc => hn hc.1⟩
                rw [if_neg hn]
                split
                · simp
                · split <;> simp

/-- C7: deferred to-many / many-to-many follow-up statements are issued
only when the primary scan succeeded with an affected-row count greater
than zero — in particular, under an adapter reporting zero affected rows
for every statement, the scan trace contains no follow-up statement at
all. -/
theorem c7_followups_gated_on_rows (f : Fmter) (ad : Adapter)
    (q : SelectQuery) (hasDest : Bool) :
    ((∀ s, ((ad.scanQuery s).1).rowsAffected ≤ 0) →
      ((SelectQuery.scanResult f ad q hasDest).2.1.filter Stmt.isFollowUp) = []) ∧
    (∀ st, st ∈ (SelectQuery.scanResult f ad q hasDest).2.1 →
      Stmt.isFollowUp st = true →
      ∃ sql res, ad.scanQuery sql = (res, none) ∧ 0 < res.rowsAffected ∧
        Stmt.primary sql ∈ (SelectQuery.scanResult f ad q hasDest).2.1) := by
  rcases scanResult_trace_spec f ad q hasDest with hnil | hpos | hflat
  · constructor
    · intro _; rw [hnil]; rfl
    · intro st hst
      rw [hnil] at hst
      simp at hst
  · obtain ⟨sql, res, hq, hn, jr, hjr, _⟩ := hpos
    constructor
    · intro h0
      exfalso
      have := h0 sql
      rw [hq] at this
      simp only at this
      omega
    · intro st hst _
      exact ⟨sql, res, hq, hn, by rw [hjr]; exact List.mem_cons_self _ _⟩
  · obtain ⟨sql, hjr, _⟩ := hflat
    constructor
    · intro _; rw [hjr]; rfl
    · intro st hst hfu
      rw [hjr] at hst
      simp only [List.mem_singleton] at hst
      rw [hst] at hfu
      simp [Stmt.isFollowUp] at hfu

/-- C7 (witness): the gating applied to a concrete query over the `users`
model (which declares relations) with the all-zero adapter: no follow-up
statement appears in the trace. -/
theorem c7_followups_gated_on_rows_witness :
    ((SelectQuery.scanResult pgFmter zeroAdapter
        (SelectQuery.Model NewSelectQuery usersModel) false).2.1.filter
      Stmt.isFollowUp) = [] :=
  (c7_followups_gated_on_rows pgFmter zeroAdapter
    (SelectQuery.Model NewSelectQuery usersModel) false).1
    (fun _ => by simp [zeroAdapter])

/-! ## C9 -/

/-- C9 (counterexample): with a pinned connection and `Limit(-1)` (a
nonzero limit, zero offset), `ScanAndCount` takes the sequential path but
issues only the count statement — the scan is skipped, refuting the claim
that the scan statement always runs before the count statement on that
path. -/
theorem c9_limit_minus_one_skips_scan_counterexample :
    (SelectQuery.Conn (SelectQuery.Limit
        (SelectQuery.Table NewSelectQuery ["t"]) (-1))).core.limit = -1 ∧
    (SelectQuery.Conn (SelectQuery.Limit
        (SelectQuery.Table NewSelectQuery ["t"]) (-1))).core.offset = 0 ∧
    (SelectQuery.Conn (SelectQuery.Limit
        (SelectQuery.Table NewSelectQuery ["t"]) (-1))).core.conn = some () ∧
    (SelectQuery.ScanAndCount pgFmter zeroAdapter
        (SelectQuery.Conn (SelectQuery.Limit
          (SelectQuery.Table NewSelectQuery ["t"]) (-1))) false false).2.1 =
      [SCStmt.countPart] :=
  ⟨rfl, rfl, rfl, rfl⟩

/-- C9 (amended): with limit 0 and offset 0, `ScanAndCount` executes the
single scan statement and, on success, returns its affected-row count as
the count; with a limit or offset present and a pinned connection it takes
the sequential path — the scan statement (provided the limit is
non-negative; `Limit(-1)` skips the scan) and then the count statement —
returning the scan's error if any, else the count's outcome (nil if both
succeed). -/
theorem c9_scan_and_count_amended (f : Fmter) (ad : Adapter) (q : SelectQuery)
    (hasDest sef : Bool) :
    (q.core.offset = 0 ∧ q.core.limit = 0 →
      (SelectQuery.ScanAndCount f ad q hasDest sef).2.1 =
        [SCStmt.scanPart (SelectQuery.scanResult f ad q hasDest).2.1] ∧
      (∀ res, (SelectQuery.scanResult f ad q hasDest).2.2.1 = some res →
        (SelectQuery.scanResult f ad q hasDest).2.2.2 = none →
        res.rowsAffectedErr = none →
        (SelectQuery.ScanAndCount f ad q hasDest sef).2.2 =
          (res.rowsAffected, none))) ∧
    (¬ (q.core.offset = 0 ∧ q.core.limit = 0) → q.core.conn ≠ none →
      0 ≤ q.core.limit →
      (SelectQuery.ScanAndCount f ad q hasDest sef).2.1 =
        [SCStmt.scanPart (SelectQuery.scanResult f ad q hasDest).2.1,
         SCStmt.countPart] ∧
      (∀ e, (SelectQuery.scanResult f ad q hasDest).2.2.2 = some e →
        (SelectQuery.ScanAndCount f ad q hasDest sef).2.2.2 = some e) ∧
      ((SelectQuery.scanResult f ad q hasDest).2.2.2 = none →
        (SelectQuery.ScanAndCount f ad q hasDest sef).2.2 =
          ((SelectQuery.Count f ad
              (SelectQuery.scanResult f ad q hasDest).1).2.1,
           (SelectQuery.Count f ad
              (SelectQuery.scanResult f ad q hasDest).1).2.2))) := by
  constructor
  · intro h0
    have hcond : (decide (q.core.offset = 0) && decide (q.core.limit = 0)) = true := by
      simp [h0.1, h0.2]
    have hsingle : SelectQuery.ScanAndCount f ad q hasDest sef =
        scanAndCountSingle (SelectQuery.scanResult f ad q hasDest) := by
      unfold SelectQuery.ScanAndCount
      rw [if_pos hcond]
    constructor
    · rw [hsingle]
      unfold scanAndCountSingle
      split
      · rfl
      · split
        · rfl
        · split <;> rfl
    · intro res hres herr hra
      rw [hsingle]
      unfold scanAndCountSingle
      simp only [herr, hres, hra]
  · intro h0 hconn hlim
    have hcond : (decide (q.core.offset = 0) && decide (q.core.limit = 0)) = false := by
      by_cases ho : q.core.offset = 0
      · by_cases hl : q.core.limit = 0
        · exact absurd ⟨ho, hl⟩ h0
        · simp [hl]
      · simp [ho]
    have hisnone : q.core.conn.isNone = false := by
      cases hc : q.core.conn with
      | none => exact absurd hc hconn
      | some u => rfl
    have hscc : SelectQuery.ScanAndCount f ad q hasDest sef =
        SelectQuery.scanAndCountSeq f ad q hasDest := by
      unfold SelectQuery.ScanAndCount
      rw [if_neg (by simp [hcond]), if_neg (by simp [hisnone])]
    have hseq : SelectQuery.scanAndCountSeq f ad q hasDest =
        scanAndCountSeqFinish f ad (SelectQuery.scanResult f ad q hasDest).1
          [SCStmt.scanPart (SelectQuery.scanResult f ad q hasDest).2.1]
          (SelectQuery.scanResult f ad q hasDest).2.2.2 := by
      unfold SelectQuery.scanAndCountSeq
      rw [if_pos hlim]
    rw [hscc, hseq]
    unfold scanAndCountSeqFinish
    refine ⟨rfl, ?_, ?_⟩
    · intro e he
      rw [he]
      simp only
      split <;> simp_all
    · intro he
      rw [he]
      simp only
      cases (SelectQuery.Count f ad
          (SelectQuery.scanResult f ad q hasDest).1).2.2 <;> rfl

/-- C9 (witness): the amended theorem applied to a concrete limit-0,
offset-0 query: one combined scan statement, no separate count. -/
theorem c9_scan_and_count_amended_witness :
    (SelectQuery.ScanAndCount pgFmter zeroAdapter
        (SelectQuery.Table NewSelectQuery ["t"]) false false).2.1 =
      [SCStmt.scanPart (SelectQuery.scanResult pgFmter zeroAdapter
        (SelectQuery.Table NewSelectQuery ["t"]) false).2.1] :=
  ((c9_scan_and_count_amended pgFmter zeroAdapter
    (SelectQuery.Table NewSelectQuery ["t"]) false false).1 ⟨rfl, rfl⟩).1
